import Mathlib

/-!
# Verification of the shopify-link-checker core

A shallow embedding, in Lean 4, of the core of the `shopify-link-checker`
repository: the URL extractor (`src/utils.py`), the checkpoint / resume-token
data model and scope fingerprint (`src/models.py`), the redirect-aware link
verifier (`src/link_checker.py`) and the job orchestration pieces that the
specification's claims touch (`src/job_manager.py`).

Modelling conventions:

* Python strings are `String` / `List Char`; machine-independent integers are
  `Int` / `Nat` (Python ints are arbitrary precision, so no wrap-around is
  modelled).
* Library functions used by the code are modelled explicitly where claims
  depend on them (`base64`, UTF-8 encoding, JSON serialization of the
  checkpoint, `html.unescape`, `hashlib.sha256`); the models are stated next
  to their definitions.
* `html.unescape` is modelled for the four standard named entities
  (`&amp;` `&lt;` `&gt;` `&quot;`) with the same single-left-to-right-pass
  semantics as the library; the full html5 entity table is library data and
  the claims under study only exercise these entities.  Both the code-side
  extractor and the spec-side reference definition share this model, so the
  comparison between them is unaffected by the restriction.
* `re`'s `\s` class and `re.IGNORECASE` are modelled over ASCII, which covers
  every character the scanned pattern (`https?://`) contains.
* Loops are embedded as fuel-indexed structural recursions; every wrapper
  supplies fuel that provably suffices (each step consumes at least one
  input element), and the theorems are stated about the wrappers.
-/

/-! ## Characters and small helpers -/

/-- `{` without writing a brace character. -/
def lcurly : Char := Char.ofNat 123

/-- `}` without writing a brace character. -/
def rcurly : Char := Char.ofNat 125

/-- The character class excluded from a URL match: `re`'s `\s` (ASCII part:
space, tab, LF, VT, FF, CR) together with `"` `<` `>`, from the pattern
`https?://[^\s"<>]+` in `extract_urls` (src/utils.py). -/
def isUrlBanned (c : Char) : Bool :=
  c.toNat = 32 || c.toNat = 9 || c.toNat = 10 || c.toNat = 11 ||
  c.toNat = 12 || c.toNat = 13 || c = '"' || c = '<' || c = '>'

/-- Case-insensitive prefix match of an (already lowercase) pattern, the ASCII
model of `re.IGNORECASE` applied to the literal parts of the URL pattern. -/
def matchesCI : List Char → List Char → Bool
  | [], _ => true
  | _ :: _, [] => false
  | p :: ps, c :: cs => (c.toLower = p) && matchesCI ps cs

/-- Length of the scheme part `https?://` matched case-insensitively at the
head of the input: 8 for `https://`, 7 for `http://`, none otherwise. -/
def schemeLenAt (l : List Char) : Option Nat :=
  if matchesCI ("https://".data) l then some 8
  else if matchesCI ("http://".data) l then some 7
  else none

/-- The maximal run of non-excluded characters at the head of the input: what
`[^\s"<>]+`-style maximal munch consumes from a given start position. -/
def urlRun (l : List Char) : List Char := l.takeWhile (fun c => !isUrlBanned c)

/-- The trailing-punctuation class of `re.sub(r"[.,;:!?)]+$", "", url)`. -/
def isTrailPunct (c : Char) : Bool :=
  c = '.' || c = ',' || c = ';' || c = ':' || c = '!' || c = '?' || c = ')'

/-- Strip every trailing character of the class `[.,;:!?)]` (the `re.sub` in
`extract_urls`). -/
def rstripPunct (l : List Char) : List Char :=
  (l.reverse.dropWhile isTrailPunct).reverse

/-- Exact-string deduplication keeping first occurrences.  `extract_urls`
returns `list(set(cleaned_urls))`, whose iteration order Python leaves
unspecified; the embedding fixes the first-occurrence order, and statements
about multi-element outputs are made up to that choice. -/
def dedupAux : List String → List String → List String
  | _, [] => []
  | seen, x :: xs =>
    if seen.contains x then dedupAux seen xs else x :: dedupAux (x :: seen) xs

/-! ## `html.unescape` model -/

/-- The named entities the `html.unescape` model resolves (with their
mandatory-semicolon spellings). -/
def entityTable : List (List Char × Char) :=
  [("amp;".data, '&'), ("lt;".data, '<'), ("gt;".data, '>'), ("quot;".data, '"')]

/-- After a `&`, the entity match consuming the longest table entry that
prefixes the rest of the input (the table entries are prefix-free). -/
def matchEntity (l : List Char) : Option (Char × List Char) :=
  (entityTable.find? (fun e => e.1.isPrefixOf l)).map
    (fun e => (e.2, l.drop e.1.length))

/-- One left-to-right pass replacing recognized entities, as `html.unescape`
performs (replacements are never rescanned).  Fuel-indexed; each step consumes
at least one input character. -/
def unescapeAux : Nat → List Char → List Char
  | 0, l => l
  | _ + 1, [] => []
  | fuel + 1, c :: cs =>
    if c = '&' then
      match matchEntity cs with
      | some (r, rest) => r :: unescapeAux fuel rest
      | none => '&' :: unescapeAux fuel cs
    else c :: unescapeAux fuel cs

/-- `html.unescape` on a string. -/
def pyUnescape (s : String) : String := String.mk (unescapeAux s.data.length s.data)

/-! ## `extract_urls` (src/utils.py) -/

/-- The non-overlapping left-to-right scan of `re.findall` for the pattern
`https?://[^\s"<>]+` (case-insensitive): at each position, if the scheme
matches and the maximal non-excluded run extends strictly past it, emit the
run and continue after it; otherwise advance one character.  Fuel-indexed;
each step consumes at least one input character. -/
def findallAux : Nat → List Char → List (List Char)
  | 0, _ => []
  | _ + 1, [] => []
  | fuel + 1, c :: cs =>
    match schemeLenAt (c :: cs) with
    | some k =>
      let run := urlRun (c :: cs)
      if k < run.length then
        run :: findallAux fuel ((c :: cs).drop run.length)
      else
        findallAux fuel cs
    | none => findallAux fuel cs

/-- `extract_urls(text)` (src/utils.py lines 9-32): empty/falsy input short
circuit, `html.unescape`, `re.findall` of `https?://[^\s"<>]+` (ignore case),
per-match strip of trailing `[.,;:!?)]+`, and `list(set(...))`
deduplication. -/
def extract_urls (text : String) : List String :=
  if text = "" then []
  else
    let l := unescapeAux text.data.length text.data
    dedupAux [] ((findallAux l.length l).map (fun r => String.mk (rstripPunct r)))

/-! ## The spec's reference definition of extraction

The specification describes extraction as: decode HTML entities, take every
maximal substring starting with `http://` or `https://` (case-insensitive)
that contains no whitespace, double-quote or angle-bracket character, strip
trailing sentence punctuation from each, and deduplicate.  A substring
occurrence is a start index `i` and a length `m`; maximality is
non-containment in any other qualifying occurrence. -/

/-- The substring occurrence of `l` starting at `i` with length `m`. -/
def subOcc (l : List Char) (i m : Nat) : List Char := (l.drop i).take m

/-- Does the substring start with `http://` or `https://` (case-insensitive)? -/
def schemeHeaded (s : List Char) : Bool := (schemeLenAt s).isSome

/-- Does the substring avoid whitespace, double quotes and angle brackets? -/
def cleanRun (s : List Char) : Bool := s.all (fun c => !isUrlBanned c)

/-- A qualifying occurrence per the spec's words: in bounds, starting with the
scheme, containing no excluded character. -/
def specCand (l : List Char) (i m : Nat) : Prop :=
  i + m ≤ l.length ∧ schemeHeaded (subOcc l i m) = true ∧
    cleanRun (subOcc l i m) = true

instance (l : List Char) (i m : Nat) : Decidable (specCand l i m) := by
  unfold specCand; infer_instance

/-- A maximal qualifying occurrence: no distinct qualifying occurrence
contains it.  (The quantifier bounds are forced by `specCand` and are written
out to keep the predicate decidable.) -/
def specMaxAt (l : List Char) (i m : Nat) : Prop :=
  specCand l i m ∧ ∀ j < l.length + 1, ∀ n < l.length + 1,
    specCand l j n → j ≤ i → i + m ≤ j + n → j = i ∧ n = m

instance (l : List Char) (i m : Nat) : Decidable (specMaxAt l i m) := by
  unfold specMaxAt
  exact @instDecidableAnd _ _ _ (Nat.decidableBallLT _ _)

/-- The reference extraction following the spec's sentence literally: entity
decoding, all maximal qualifying occurrences in increasing start order (for a
given start, the maximal length is unique, picked by `find?`), trailing
punctuation stripped from each, deduplicated. -/
def specMaximalUrls (text : String) : List String :=
  let l := unescapeAux text.data.length text.data
  dedupAux [] ((List.range (l.length + 1)).filterMap (fun i =>
    ((List.range (l.length + 1)).find? (fun m => decide (specMaxAt l i m))).map
      (fun m => String.mk (rstripPunct (subOcc l i m)))))

/-- Does the substring start with the scheme and extend strictly past it? -/
def schemeExtended (s : List Char) : Bool :=
  match schemeLenAt s with
  | some k => decide (k < s.length)
  | none => false

/-- A qualifying occurrence as amended: the run must extend strictly past the
scheme prefix, mirroring the `+` of the code's pattern `https?://[^\s"<>]+`
(a bare `http://` with nothing after the slashes does not match). -/
def specCandExt (l : List Char) (i m : Nat) : Prop :=
  i + m ≤ l.length ∧ schemeExtended (subOcc l i m) = true ∧
    cleanRun (subOcc l i m) = true

instance (l : List Char) (i m : Nat) : Decidable (specCandExt l i m) := by
  unfold specCandExt; infer_instance

/-- Maximality for the amended qualification. -/
def specMaxExtAt (l : List Char) (i m : Nat) : Prop :=
  specCandExt l i m ∧ ∀ j < l.length + 1, ∀ n < l.length + 1,
    specCandExt l j n → j ≤ i → i + m ≤ j + n → j = i ∧ n = m

instance (l : List Char) (i m : Nat) : Decidable (specMaxExtAt l i m) := by
  unfold specMaxExtAt
  exact @instDecidableAnd _ _ _ (Nat.decidableBallLT _ _)

/-- The amended reference extraction: as `specMaximalUrls`, but a qualifying
substring must extend its scheme prefix by at least one character. -/
def specMaximalUrlsExt (text : String) : List String :=
  let l := unescapeAux text.data.length text.data
  dedupAux [] ((List.range (l.length + 1)).filterMap (fun i =>
    ((List.range (l.length + 1)).find? (fun m => decide (specMaxExtAt l i m))).map
      (fun m => String.mk (rstripPunct (subOcc l i m)))))

example : extract_urls "See https://x.com/a?b=1&amp;c=2." = ["https://x.com/a?b=1&c=2"] := by decide
example : extract_urls "" = [] := by decide
example : extract_urls "http://" = [] := by decide
example : specMaximalUrls "http://" = ["http://"] := by decide
example : specMaximalUrlsExt "http://" = [] := by decide
example : extract_urls "No URLs in this text" = [] := by decide
example : extract_urls "Videos: https://example.com/1.mp4 and https://example.com/2.mp4"
    = ["https://example.com/1.mp4", "https://example.com/2.mp4"] := by decide

/-! ## Data model (src/models.py)

The enums and record types.  `LinkStatus`, `ProductAction` and the extra
members of `ActionType` / fields of `JobStats`, `JobConfig` and `CheckResult`
are imported by `job_manager.py` and `link_checker.py` from a models module
whose current revision is not among the source files; their shapes are taken
from every use in those two files (the `models.py` present is the earlier
revision of the same module). -/

inductive ProductStatus
  | active
  | draft
  | archived
  | any
  deriving DecidableEq

/-- The `str`-enum value of a `ProductStatus`. -/
def ProductStatus.value : ProductStatus → String
  | .active => "active"
  | .draft => "draft"
  | .archived => "archived"
  | .any => "any"

/-- The classification tags produced by the link verifier (every constructor
appears in `link_checker.py` or `job_manager.py`). -/
inductive LinkStatus
  | ok
  | redirected_ok
  | broken_timeout
  | broken_dns
  | broken_ssl
  | broken_too_many_redirects
  | broken_not_found
  | broken_client_error
  | broken_server_error
  | broken_other
  | no_url
  deriving DecidableEq

/-- Is the tag one of the broken classifications? -/
def LinkStatus.isBrokenTag : LinkStatus → Bool
  | .broken_timeout | .broken_dns | .broken_ssl | .broken_too_many_redirects
  | .broken_not_found | .broken_client_error | .broken_server_error
  | .broken_other => true
  | .ok | .redirected_ok | .no_url => false

/-- The per-product action recorded in the ledger. -/
inductive ActionType
  | no_action
  | drafted
  | archived
  | already_draft
  | already_archived
  | would_draft
  | would_archive
  | ignored
  | error
  | no_urls
  deriving DecidableEq

/-- The broken-link / manual action choice. -/
inductive ProductAction
  | draft
  | archive
  | ignore
  deriving DecidableEq

inductive JobStatus
  | pending
  | running
  | completed
  | failed
  | cancelled
  deriving DecidableEq

/-- A naive `datetime` value as `datetime.utcnow()` produces and pydantic
serializes (the code never attaches a timezone).  `Valid` states the bounds
Python's `datetime` constructor enforces (the day bound is the superset
`≤ 31`). -/
structure PyDateTime where
  year : Nat
  month : Nat
  day : Nat
  hour : Nat
  minute : Nat
  second : Nat
  microsecond : Nat
  deriving DecidableEq

/-- The ranges a Python `datetime` always satisfies. -/
def PyDateTime.Valid (d : PyDateTime) : Prop :=
  1 ≤ d.year ∧ d.year ≤ 9999 ∧ 1 ≤ d.month ∧ d.month ≤ 12 ∧
    1 ≤ d.day ∧ d.day ≤ 31 ∧ d.hour ≤ 23 ∧ d.minute ≤ 59 ∧
    d.second ≤ 59 ∧ d.microsecond ≤ 999999

instance (d : PyDateTime) : Decidable d.Valid := by
  unfold PyDateTime.Valid; infer_instance

/-- `CollectsState` (src/models.py lines 66-71). -/
structure CollectsState where
  collection_id : Int
  page_info : Option String
  product_ids : List Int
  deriving DecidableEq

/-- `Checkpoint` (src/models.py lines 74-82).  `collects_state` is a
`dict[int, CollectsState]`, embedded as an association list in insertion
order, which is also the order pydantic serializes a dict in. -/
structure Checkpoint where
  scope_hash : String
  page_info : Option String
  collects_state : List (Int × CollectsState)
  seen_ids : List Int
  processed_count : Int
  timestamp : PyDateTime
  deriving DecidableEq

/-- A checkpoint is valid when its timestamp is a representable datetime. -/
def Checkpoint.Valid (c : Checkpoint) : Prop := c.timestamp.Valid

instance (c : Checkpoint) : Decidable c.Valid := by
  unfold Checkpoint.Valid; infer_instance

/-! ## `hashlib.sha256(...).hexdigest()` model

FIPS 180-4 SHA-256 over a byte sequence, with the round constants derived
from their definition (fractional parts of the cube/square roots of the first
primes) rather than transcribed. -/

/-- Truncation to a 32-bit word. -/
def w32 (n : Nat) : Nat := n % 4294967296

/-- Right rotation of a 32-bit word. -/
def rotr32 (x n : Nat) : Nat := x / 2 ^ n + x % 2 ^ n * 2 ^ (32 - n)

/-- Bisection step for the integer cube root. -/
def icbrtAux : Nat → Nat → Nat → Nat → Nat
  | 0, lo, _, _ => lo
  | fuel + 1, lo, hi, n =>
    if hi ≤ lo then lo
    else
      let mid := (lo + hi + 1) / 2
      if mid * mid * mid ≤ n then icbrtAux fuel mid hi n
      else icbrtAux fuel lo (mid - 1) n

/-- Integer cube root (largest `r` with `r^3 ≤ n`), for `n < 2^130`. -/
def icbrt (n : Nat) : Nat := icbrtAux 200 0 n n

/-- The first 64 primes. -/
def sha256primes : List Nat :=
  [2, 3, 5, 7, 11, 13, 17, 19, 23, 29, 31, 37, 41, 43, 47, 53,
   59, 61, 67, 71, 73, 79, 83, 89, 97, 101, 103, 107, 109, 113, 127, 131,
   137, 139, 149, 151, 157, 163, 167, 173, 179, 181, 191, 193, 197, 199, 211, 223,
   227, 229, 233, 239, 241, 251, 257, 263, 269, 271, 277, 281, 283, 293, 307, 311]

/-- The 64 round constants: fractional parts of the cube roots of the first
64 primes, as 32-bit words. -/
def sha256k : List Nat := sha256primes.map (fun p => w32 (icbrt (p * 2 ^ 96)))

/-- The initial hash state: fractional parts of the square roots of the first
8 primes. -/
def sha256init : List Nat :=
  (sha256primes.take 8).map (fun p => w32 (Nat.sqrt (p * 2 ^ 64)))

/-- Big-endian bytes of a value at a fixed width. -/
def beBytes : Nat → Nat → List Nat
  | 0, _ => []
  | width + 1, v => beBytes width (v / 256) ++ [v % 256]

/-- SHA-256 padding: `0x80`, zeros to 56 mod 64, 8-byte big-endian bit
length. -/
def sha256pad (msg : List Nat) : List Nat :=
  let z := (120 - (msg.length + 1) % 64) % 64
  msg ++ [128] ++ List.replicate z 0 ++ beBytes 8 (8 * msg.length)

/-- Big-endian 32-bit words from bytes. -/
def beWords : List Nat → List Nat
  | b0 :: b1 :: b2 :: b3 :: rest =>
    (((b0 * 256 + b1) * 256 + b2) * 256 + b3) :: beWords rest
  | _ => []

/-- σ0. -/
def smallSigma0 (x : Nat) : Nat := rotr32 x 7 ^^^ rotr32 x 18 ^^^ x / 2 ^ 3

/-- σ1. -/
def smallSigma1 (x : Nat) : Nat := rotr32 x 17 ^^^ rotr32 x 19 ^^^ x / 2 ^ 10

/-- Σ0. -/
def bigSigma0 (x : Nat) : Nat := rotr32 x 2 ^^^ rotr32 x 13 ^^^ rotr32 x 22

/-- Σ1. -/
def bigSigma1 (x : Nat) : Nat := rotr32 x 6 ^^^ rotr32 x 11 ^^^ rotr32 x 25

/-- Message-schedule extension (48 steps from the 16 chunk words). -/
def extendW : Nat → List Nat → List Nat
  | 0, w => w
  | fuel + 1, w =>
    let t := w.length
    let nw := w32 (smallSigma1 (w.getD (t - 2) 0) + w.getD (t - 7) 0 +
      smallSigma0 (w.getD (t - 15) 0) + w.getD (t - 16) 0)
    extendW fuel (w ++ [nw])

/-- One compression round on the (a..h) state. -/
def sha256round (st : List Nat) (kw : Nat × Nat) : List Nat :=
  match st with
  | [a, b, c, d, e, f, g, h] =>
    let ch := (e &&& f) ^^^ ((4294967295 - e) &&& g)
    let maj := (a &&& b) ^^^ (a &&& c) ^^^ (b &&& c)
    let t1 := w32 (h + bigSigma1 e + ch + kw.1 + kw.2)
    let t2 := w32 (bigSigma0 a + maj)
    [w32 (t1 + t2), a, b, c, w32 (d + t1), e, f, g]
  | other => other

/-- Process one 64-byte chunk. -/
def sha256chunk (h : List Nat) (chunk : List Nat) : List Nat :=
  let w := extendW 48 (beWords chunk)
  let st := (sha256k.zip w).foldl sha256round h
  (h.zip st).map (fun p => w32 (p.1 + p.2))

/-- Split into 64-byte chunks (fuel-indexed). -/
def chunks64 : Nat → List Nat → List (List Nat)
  | 0, _ => []
  | _ + 1, [] => []
  | fuel + 1, l => l.take 64 :: chunks64 fuel (l.drop 64)

/-- The SHA-256 state words of a byte message. -/
def sha256bytes (msg : List Nat) : List Nat :=
  let padded := sha256pad msg
  (chunks64 padded.length padded).foldl sha256chunk sha256init

/-- A lowercase hex digit. -/
def hexNibble (n : Nat) : Char :=
  if n < 10 then Char.ofNat (48 + n) else Char.ofNat (87 + n)

/-- Eight lowercase hex digits of a 32-bit word. -/
def word32hex (v : Nat) : List Char :=
  [hexNibble (v / 268435456 % 16), hexNibble (v / 16777216 % 16),
   hexNibble (v / 1048576 % 16), hexNibble (v / 65536 % 16),
   hexNibble (v / 4096 % 16), hexNibble (v / 256 % 16),
   hexNibble (v / 16 % 16), hexNibble (v % 16)]

/-- `hashlib.sha256(bytes).hexdigest()`. -/
def sha256hexOfBytes (msg : List Nat) : String :=
  String.mk (((sha256bytes msg).map word32hex).flatten)

/-- UTF-8 bytes of one character (`str.encode()`; Lean `Char` carries exactly
the scalar values Python can encode). -/
def utf8EncodeChar (c : Char) : List Nat :=
  let n := c.toNat
  if n < 128 then [n]
  else if n < 2048 then [192 + n / 64, 128 + n % 64]
  else if n < 65536 then [224 + n / 4096, 128 + n / 64 % 64, 128 + n % 64]
  else [240 + n / 262144, 128 + n / 4096 % 64, 128 + n / 64 % 64, 128 + n % 64]

/-- UTF-8 bytes of a character sequence. -/
def utf8Encode (l : List Char) : List Nat :=
  l.foldr (fun c acc => utf8EncodeChar c ++ acc) []

/-! ## `Checkpoint.compute_scope_hash` (src/models.py lines 84-101)

`json.dumps(scope_data, sort_keys=True)` of the five-key scope dict (default
separators `", "` / `": "`, `ensure_ascii=True`), hashed with SHA-256. -/

/-- A decimal digit character. -/
def digitChar (n : Nat) : Char := Char.ofNat (48 + n)

/-- Decimal digits of a natural number (fuel-indexed accumulator; the fuel
`n + 1` always suffices since the digit count is at most `n + 1`). -/
def natToCharsAux : Nat → Nat → List Char → List Char
  | 0, _, acc => acc
  | fuel + 1, n, acc =>
    if n < 10 then digitChar n :: acc
    else natToCharsAux fuel (n / 10) (digitChar (n % 10) :: acc)

/-- The decimal representation of a natural number. -/
def natToChars (n : Nat) : List Char := natToCharsAux (n + 1) n []

/-- The decimal representation of an integer, as Python prints one. -/
def intToChars (i : Int) : List Char :=
  if i < 0 then '-' :: natToChars i.natAbs else natToChars i.toNat

/-- `\uXXXX` escape of a 16-bit value (Python uses lowercase hex). -/
def pyHexEscape (n : Nat) : List Char :=
  ['\\', 'u', hexNibble (n / 4096 % 16), hexNibble (n / 256 % 16),
   hexNibble (n / 16 % 16), hexNibble (n % 16)]

/-- `json.dumps` escaping of one character with `ensure_ascii=True`: the two
specials `"` `\`, the short control escapes, `\uXXXX` for other characters
outside `0x20..0x7e`, and a surrogate pair beyond the BMP. -/
def pyJsonEscapeChar (c : Char) : List Char :=
  if c = '"' then ['\\', '"']
  else if c = '\\' then ['\\', '\\']
  else if c.toNat = 8 then ['\\', 'b']
  else if c.toNat = 9 then ['\\', 't']
  else if c.toNat = 10 then ['\\', 'n']
  else if c.toNat = 12 then ['\\', 'f']
  else if c.toNat = 13 then ['\\', 'r']
  else if 32 ≤ c.toNat ∧ c.toNat ≤ 126 then [c]
  else if c.toNat < 65536 then pyHexEscape c.toNat
  else
    pyHexEscape (55296 + (c.toNat - 65536) / 1024) ++
      pyHexEscape (56320 + (c.toNat - 65536) % 1024)

/-- A `json.dumps` string literal (`ensure_ascii=True`). -/
def pyJsonStr (s : String) : List Char :=
  '"' :: s.data.foldr (fun c acc => pyJsonEscapeChar c ++ acc) [] ++ ['"']

/-- Concatenation with a separator between elements. -/
def joinSep (sep : List Char) : List (List Char) → List Char
  | [] => []
  | [x] => x
  | x :: y :: xs => x ++ sep ++ joinSep sep (y :: xs)

/-- Python's `sorted` on an integer list (ascending). -/
def pySorted (l : List Int) : List Int := l.mergeSort (fun a b => decide (a ≤ b))

/-- The serialized scope dict: keys in sorted order (`sort_keys=True`), the
collection-ID list sorted, and — Python truthiness of
`sorted(collection_ids) if collection_ids else None` — `null` both for a
missing and for an empty list. -/
def scopeJson (shop : String) (status : ProductStatus) (ns key : String)
    (collection_ids : Option (List Int)) : List Char :=
  let idsJson : List Char :=
    match collection_ids with
    | some (a :: rest) =>
      '[' :: joinSep (", ".data) ((pySorted (a :: rest)).map intToChars) ++ [']']
    | _ => "null".data
  [lcurly] ++ pyJsonStr "collection_ids" ++ ": ".data ++ idsJson ++ ", ".data ++
    pyJsonStr "key" ++ ": ".data ++ pyJsonStr key ++ ", ".data ++
    pyJsonStr "namespace" ++ ": ".data ++ pyJsonStr ns ++ ", ".data ++
    pyJsonStr "shop" ++ ": ".data ++ pyJsonStr shop ++ ", ".data ++
    pyJsonStr "status" ++ ": ".data ++ pyJsonStr status.value ++ [rcurly]

/-- `Checkpoint.compute_scope_hash` (src/models.py lines 84-101). -/
def Checkpoint.compute_scope_hash (shop : String) (status : ProductStatus)
    (ns key : String) (collection_ids : Option (List Int)) : String :=
  sha256hexOfBytes (utf8Encode (scopeJson shop status ns key collection_ids))

/-- `JobConfig` (src/models.py lines 104-119), together with the fields
`max_redirects`, `auto_action`, `broken_action` and `updated_after` that
`job_manager.py` reads from the current revision of the module; the numeric
bounds pydantic enforces are not needed by the claims under study and are
not modelled. -/
structure JobConfig where
  shop : String
  token : String
  ns : String
  key : String
  status : ProductStatus
  collection_ids : Option (List Int)
  batch_size : Nat
  concurrency : Nat
  timeout_ms : Nat
  follow_redirects : Bool
  dry_run : Bool
  resume_token : Option String
  api_version : String
  max_redirects : Nat
  auto_action : Bool
  broken_action : ProductAction
  updated_after : Option PyDateTime

/-- `JobConfig.get_scope_hash` (src/models.py lines 121-125). -/
def JobConfig.get_scope_hash (c : JobConfig) : String :=
  Checkpoint.compute_scope_hash c.shop c.status c.ns c.key c.collection_ids

/-- `JobStats` (src/models.py lines 138-147 plus the counters read and
written in `job_manager.py`). -/
structure JobStats where
  total_products : Nat
  processed : Nat
  drafted_count : Nat
  archived_count : Nat
  ignored_count : Nat
  broken_url_count : Nat
  ok_url_count : Nat
  redirected_ok_count : Nat
  no_url_count : Nat
  errors_count : Nat
  batch_index : Nat
  total_batches : Nat
  deriving DecidableEq

/-- A ledger row (`CheckResult`), with every field `_process_product`
populates; the `checked_at` wall-clock timestamp is not modelled. -/
structure CheckResult where
  product_id : Int
  product_title : String
  product_status : String
  product_handle : String
  product_image : Option String
  metafield : String
  original_url : String
  final_url : Option String
  http_status : Option Nat
  link_status : LinkStatus
  is_broken : Bool
  was_redirected : Bool
  redirect_count : Nat
  error : Option String
  action : ActionType
  deriving DecidableEq

/-- `Job` (src/models.py lines 150-161); the `started_at` / `finished_at`
wall-clock fields are not modelled. -/
structure Job where
  id : String
  config : JobConfig
  status : JobStatus
  stats : JobStats
  results : List CheckResult
  checkpoint : Option Checkpoint
  error : Option String

/-! ## Resume token: `Job.get_resume_token` / `Job.decode_resume_token`
(src/models.py lines 163-178)

The token is `base64.b64encode(checkpoint.model_dump_json().encode())`.
pydantic v2's `model_dump_json` emits compact JSON (no whitespace), fields in
declaration order, `None` as `null`, dict keys as decimal strings, naive
datetimes as `YYYY-MM-DDTHH:MM:SS[.ffffff]` (fraction omitted when the
microsecond is zero), and string escapes for `"`, `\` and control characters
only (non-ASCII is emitted raw and UTF-8 encoded).  `decode_resume_token`
inverts the pipeline; it is modelled by a strict parser of exactly this
serialized form (Python's decoder accepts more spellings — whitespace, other
field orders — and the model maps those to `none`; every claim under study
exercises decoding only on encoder output or on failure). -/

/-- Two zero-padded decimal digits. -/
def pad2 (n : Nat) : List Char := [digitChar (n / 10 % 10), digitChar (n % 10)]

/-- Four zero-padded decimal digits. -/
def pad4 (n : Nat) : List Char :=
  [digitChar (n / 1000 % 10), digitChar (n / 100 % 10),
   digitChar (n / 10 % 10), digitChar (n % 10)]

/-- Six zero-padded decimal digits. -/
def pad6 (n : Nat) : List Char :=
  [digitChar (n / 100000 % 10), digitChar (n / 10000 % 10),
   digitChar (n / 1000 % 10), digitChar (n / 100 % 10),
   digitChar (n / 10 % 10), digitChar (n % 10)]

/-- The ISO 8601 text of a naive datetime, as pydantic serializes one. -/
def isoChars (d : PyDateTime) : List Char :=
  pad4 d.year ++ ['-'] ++ pad2 d.month ++ ['-'] ++ pad2 d.day ++ ['T'] ++
    pad2 d.hour ++ [':'] ++ pad2 d.minute ++ [':'] ++ pad2 d.second ++
    (if d.microsecond = 0 then [] else '.' :: pad6 d.microsecond)

/-- pydantic JSON escaping of one character: `"`, `\`, short control escapes,
`\u00XX` for the remaining control characters, everything else raw. -/
def jcEscapeChar (c : Char) : List Char :=
  if c = '"' then ['\\', '"']
  else if c = '\\' then ['\\', '\\']
  else if c.toNat = 8 then ['\\', 'b']
  else if c.toNat = 9 then ['\\', 't']
  else if c.toNat = 10 then ['\\', 'n']
  else if c.toNat = 12 then ['\\', 'f']
  else if c.toNat = 13 then ['\\', 'r']
  else if c.toNat < 32 then pyHexEscape c.toNat
  else [c]

/-- The escaped body of a pydantic JSON string literal. -/
def jcBody (l : List Char) : List Char :=
  l.foldr (fun c acc => jcEscapeChar c ++ acc) []

/-- A pydantic JSON string literal. -/
def jcStr (s : String) : List Char := '"' :: jcBody s.data ++ ['"']

/-- `null` or a JSON string. -/
def jcOptStr : Option String → List Char
  | none => "null".data
  | some s => jcStr s

/-- A compact JSON array of integers. -/
def jcIntList (l : List Int) : List Char :=
  '[' :: joinSep [','] (l.map intToChars) ++ [']']

/-- The serialized `CollectsState` object. -/
def collectsJson (cs : CollectsState) : List Char :=
  [lcurly] ++ jcStr "collection_id" ++ [':'] ++ intToChars cs.collection_id ++
    [','] ++ jcStr "page_info" ++ [':'] ++ jcOptStr cs.page_info ++
    [','] ++ jcStr "product_ids" ++ [':'] ++ jcIntList cs.product_ids ++ [rcurly]

/-- The serialized `collects_state` dict (integer keys become decimal string
keys, entries in insertion order). -/
def collectsMapJson (m : List (Int × CollectsState)) : List Char :=
  [lcurly] ++ joinSep [',']
    (m.map (fun p => '"' :: intToChars p.1 ++ ['"', ':'] ++ collectsJson p.2)) ++
    [rcurly]

/-- `checkpoint.model_dump_json()`. -/
def checkpointJson (c : Checkpoint) : List Char :=
  [lcurly] ++ jcStr "scope_hash" ++ [':'] ++ jcStr c.scope_hash ++
    [','] ++ jcStr "page_info" ++ [':'] ++ jcOptStr c.page_info ++
    [','] ++ jcStr "collects_state" ++ [':'] ++ collectsMapJson c.collects_state ++
    [','] ++ jcStr "seen_ids" ++ [':'] ++ jcIntList c.seen_ids ++
    [','] ++ jcStr "processed_count" ++ [':'] ++ intToChars c.processed_count ++
    [','] ++ jcStr "timestamp" ++ [':', '"'] ++ isoChars c.timestamp ++
    ['"', rcurly]

/-- The base64 alphabet character of a sextet. -/
def sextetChar (n : Nat) : Char :=
  if n < 26 then Char.ofNat (65 + n)
  else if n < 52 then Char.ofNat (97 + (n - 26))
  else if n < 62 then Char.ofNat (48 + (n - 52))
  else if n = 62 then '+' else '/'

/-- The sextet of a base64 alphabet character. -/
def charSextet (c : Char) : Option Nat :=
  if 65 ≤ c.toNat ∧ c.toNat ≤ 90 then some (c.toNat - 65)
  else if 97 ≤ c.toNat ∧ c.toNat ≤ 122 then some (26 + (c.toNat - 97))
  else if 48 ≤ c.toNat ∧ c.toNat ≤ 57 then some (52 + (c.toNat - 48))
  else if c = '+' then some 62
  else if c = '/' then some 63
  else none

/-- `base64.b64encode` over bytes, producing the padded text. -/
def b64encode : List Nat → List Char
  | [] => []
  | [b0] => [sextetChar (b0 / 4), sextetChar (b0 % 4 * 16), '=', '=']
  | [b0, b1] =>
    [sextetChar (b0 / 4), sextetChar (b0 % 4 * 16 + b1 / 16),
     sextetChar (b1 % 16 * 4), '=']
  | b0 :: b1 :: b2 :: rest =>
    sextetChar (b0 / 4) :: sextetChar (b0 % 4 * 16 + b1 / 16) ::
      sextetChar (b1 % 16 * 4 + b2 / 64) :: sextetChar (b2 % 64) ::
      b64encode rest

/-- A final quartet with two padding characters: one decoded byte. -/
def b64pad2 (c0 c1 : Char) : Option (List Nat) :=
  match charSextet c0, charSextet c1 with
  | some s0, some s1 => if s1 % 16 = 0 then some [s0 * 4 + s1 / 16] else none
  | _, _ => none

/-- A final quartet with one padding character: two decoded bytes. -/
def b64pad1 (c0 c1 c2 : Char) : Option (List Nat) :=
  match charSextet c0, charSextet c1, charSextet c2 with
  | some s0, some s1, some s2 =>
    if s2 % 4 = 0 then some [s0 * 4 + s1 / 16, s1 % 16 * 16 + s2 / 4]
    else none
  | _, _, _ => none

/-- An unpadded quartet: three decoded bytes. -/
def b64quad (c0 c1 c2 c3 : Char) : Option (List Nat) :=
  match charSextet c0, charSextet c1, charSextet c2, charSextet c3 with
  | some s0, some s1, some s2, some s3 =>
    some [s0 * 4 + s1 / 16, s1 % 16 * 16 + s2 / 4, s2 % 4 * 64 + s3]
  | _, _, _, _ => none

/-- Base64 decoding of well-formed padded text (`base64.b64decode` also
discards characters outside the alphabet before decoding; inputs relying on
that lenience decode to `none` here, and every such decoding failure is an
exception in Python — both surface as a failed decode to the callers
modelled below). -/
def b64decode : List Char → Option (List Nat)
  | [] => some []
  | c0 :: c1 :: c2 :: c3 :: rest =>
    if rest = [] ∧ c2 = '=' ∧ c3 = '=' then b64pad2 c0 c1
    else if rest = [] ∧ c3 = '=' then b64pad1 c0 c1 c2
    else (b64quad c0 c1 c2 c3).bind (fun triple =>
      (b64decode rest).map (fun bs => triple ++ bs))
  | _ => none

/-- The continuation of a two-byte UTF-8 sequence. -/
def utf8Decode2 (b : Nat) : List Nat → Option (Char × List Nat)
  | b1 :: rest =>
    if 128 ≤ b1 ∧ b1 < 192 then
      if 128 ≤ (b - 192) * 64 + (b1 - 128) then
        some (Char.ofNat ((b - 192) * 64 + (b1 - 128)), rest)
      else none
    else none
  | [] => none

/-- The continuation of a three-byte UTF-8 sequence (surrogates rejected). -/
def utf8Decode3 (b : Nat) : List Nat → Option (Char × List Nat)
  | b1 :: b2 :: rest =>
    if (128 ≤ b1 ∧ b1 < 192) ∧ (128 ≤ b2 ∧ b2 < 192) then
      if 2048 ≤ (b - 224) * 4096 + (b1 - 128) * 64 + (b2 - 128) ∧
          ¬(55296 ≤ (b - 224) * 4096 + (b1 - 128) * 64 + (b2 - 128) ∧
            (b - 224) * 4096 + (b1 - 128) * 64 + (b2 - 128) < 57344) then
        some (Char.ofNat ((b - 224) * 4096 + (b1 - 128) * 64 + (b2 - 128)),
          rest)
      else none
    else none
  | _ => none

/-- The continuation of a four-byte UTF-8 sequence. -/
def utf8Decode4 (b : Nat) : List Nat → Option (Char × List Nat)
  | b1 :: b2 :: b3 :: rest =>
    if (128 ≤ b1 ∧ b1 < 192) ∧ (128 ≤ b2 ∧ b2 < 192) ∧
        (128 ≤ b3 ∧ b3 < 192) then
      if 65536 ≤ (b - 240) * 262144 + (b1 - 128) * 4096 + (b2 - 128) * 64 +
            (b3 - 128) ∧
          (b - 240) * 262144 + (b1 - 128) * 4096 + (b2 - 128) * 64 +
            (b3 - 128) < 1114112 then
        some (Char.ofNat ((b - 240) * 262144 + (b1 - 128) * 4096 +
          (b2 - 128) * 64 + (b3 - 128)), rest)
      else none
    else none
  | _ => none

/-- Decode one UTF-8 encoded character, rejecting malformed, overlong,
surrogate and out-of-range sequences (`bytes.decode()` raises on those). -/
def utf8DecodeChar : List Nat → Option (Char × List Nat)
  | [] => none
  | b :: bs =>
    if b < 128 then some (Char.ofNat b, bs)
    else if b < 192 then none
    else if b < 224 then utf8Decode2 b bs
    else if b < 240 then utf8Decode3 b bs
    else if b < 248 then utf8Decode4 b bs
    else none

/-- Decode a UTF-8 byte sequence (fuel-indexed; each step consumes at least
one byte). -/
def utf8DecodeAux : Nat → List Nat → Option (List Char)
  | _, [] => some []
  | 0, _ :: _ => none
  | fuel + 1, b :: bs =>
    match utf8DecodeChar (b :: bs) with
    | some (c, rest) => (utf8DecodeAux fuel rest).map (fun cs => c :: cs)
    | none => none

/-- `bytes.decode()`. -/
def utf8Decode (l : List Nat) : Option (List Char) := utf8DecodeAux l.length l

/-! ### The strict parser of the serialized checkpoint -/

/-- Consume an exact sequence of characters. -/
def expectChars : List Char → List Char → Option (List Char)
  | [], input => some input
  | p :: ps, c :: cs => if c = p then expectChars ps cs else none
  | _ :: _, [] => none

/-- ASCII digit test. -/
def isDigitCh (c : Char) : Bool := 48 ≤ c.toNat && c.toNat ≤ 57

/-- The value of a digit run. -/
def digitsToNat (ds : List Char) : Nat :=
  ds.foldl (fun a c => a * 10 + (c.toNat - 48)) 0

/-- Parse a nonempty greedy digit run. -/
def parseNat (input : List Char) : Option (Nat × List Char) :=
  let ds := input.takeWhile isDigitCh
  if ds = [] then none
  else some (digitsToNat ds, input.dropWhile isDigitCh)

/-- Parse an optionally `-`-signed integer. -/
def parseInt (input : List Char) : Option (Int × List Char) :=
  match input with
  | [] => none
  | c :: rest =>
    if c = '-' then (parseNat rest).map (fun p => (-(p.1 : Int), p.2))
    else (parseNat (c :: rest)).map (fun p => ((p.1 : Int), p.2))

/-- Parse exactly `k` digits into an accumulator. -/
def parseFixedAux : Nat → Nat → List Char → Option (Nat × List Char)
  | 0, acc, input => some (acc, input)
  | k + 1, acc, c :: cs =>
    if isDigitCh c then parseFixedAux k (acc * 10 + (c.toNat - 48)) cs else none
  | _ + 1, _, [] => none

/-- The value of one hex digit. -/
def hexVal (c : Char) : Option Nat :=
  if 48 ≤ c.toNat ∧ c.toNat ≤ 57 then some (c.toNat - 48)
  else if 97 ≤ c.toNat ∧ c.toNat ≤ 102 then some (10 + (c.toNat - 97))
  else if 65 ≤ c.toNat ∧ c.toNat ≤ 70 then some (10 + (c.toNat - 65))
  else none

/-- The single-character JSON escapes, by escape letter. -/
def escChar (e : Char) : Option Char :=
  if e = '"' then some '"'
  else if e = '\\' then some '\\'
  else if e = 'b' then some (Char.ofNat 8)
  else if e = 't' then some (Char.ofNat 9)
  else if e = 'n' then some (Char.ofNat 10)
  else if e = 'f' then some (Char.ofNat 12)
  else if e = 'r' then some (Char.ofNat 13)
  else none

/-- Parse four hex digits into their value. -/
def parseHex4 : List Char → Option (Nat × List Char)
  | h1 :: h2 :: h3 :: h4 :: rest =>
    match hexVal h1, hexVal h2, hexVal h3, hexVal h4 with
    | some v1, some v2, some v3, some v4 =>
      some (((v1 * 16 + v2) * 16 + v3) * 16 + v4, rest)
    | _, _, _, _ => none
  | _ => none

/-- Decode one escape sequence after a backslash: the escape letter and the
remaining input, yielding the decoded character and the rest. -/
def decodeEsc (e : Char) (rest : List Char) : Option (Char × List Char) :=
  if h : (escChar e).isSome then some ((escChar e).get h, rest)
  else if e = 'u' then
    (parseHex4 rest).bind (fun nr =>
      if 55296 ≤ nr.1 ∧ nr.1 < 57344 then none
      else some (Char.ofNat nr.1, nr.2))
  else none

/-- Parse the body of a JSON string up to its closing quote, undoing the
escapes `jcEscapeChar` can emit (fuel-indexed). -/
def parseStrBody : Nat → List Char → Option (List Char × List Char)
  | 0, _ => none
  | _ + 1, [] => none
  | fuel + 1, c :: cs =>
    if c = '"' then some ([], cs)
    else if c = '\\' then
      match cs with
      | [] => none
      | e :: rest =>
        (decodeEsc e rest).bind (fun dr =>
          (parseStrBody fuel dr.2).map (fun p => (dr.1 :: p.1, p.2)))
    else (parseStrBody fuel cs).map (fun p => (c :: p.1, p.2))

/-- Parse `null` or a JSON string. -/
def parseOptStr (input : List Char) : Option (Option String × List Char) :=
  match input with
  | 'n' :: 'u' :: 'l' :: 'l' :: rest => some (none, rest)
  | '"' :: rest =>
    (parseStrBody rest.length rest).map (fun p => (some (String.mk p.1), p.2))
  | _ => none

/-- Parse the elements of an integer array after its `[` (fuel-indexed). -/
def parseIntListAux : Nat → List Char → Option (List Int × List Char)
  | 0, _ => none
  | fuel + 1, input =>
    match input with
    | [] => none
    | c :: rest =>
      if c = ']' then some ([], rest)
      else
        (parseInt (c :: rest)).bind (fun p =>
          match p.2 with
          | [] => none
          | c2 :: rest2 =>
            if c2 = ',' then
              (parseIntListAux fuel rest2).map (fun q => (p.1 :: q.1, q.2))
            else if c2 = ']' then some ([p.1], rest2)
            else none)

/-- Parse a compact JSON integer array. -/
def parseIntList (input : List Char) : Option (List Int × List Char) :=
  match input with
  | '[' :: rest => parseIntListAux (rest.length + 1) rest
  | _ => none

/-- Parse the ISO 8601 datetime text `isoChars` emits. -/
def parseIso (input : List Char) : Option (PyDateTime × List Char) :=
  (parseFixedAux 4 0 input).bind fun (y, r1) =>
  (expectChars ['-'] r1).bind fun r2 =>
  (parseFixedAux 2 0 r2).bind fun (mo, r3) =>
  (expectChars ['-'] r3).bind fun r4 =>
  (parseFixedAux 2 0 r4).bind fun (da, r5) =>
  (expectChars ['T'] r5).bind fun r6 =>
  (parseFixedAux 2 0 r6).bind fun (h, r7) =>
  (expectChars [':'] r7).bind fun r8 =>
  (parseFixedAux 2 0 r8).bind fun (mi, r9) =>
  (expectChars [':'] r9).bind fun r10 =>
  (parseFixedAux 2 0 r10).bind fun (s, r11) =>
  match r11 with
  | [] => some (⟨y, mo, da, h, mi, s, 0⟩, [])
  | c :: r12 =>
    if c = '.' then
      (parseFixedAux 6 0 r12).map fun (us, r13) => (⟨y, mo, da, h, mi, s, us⟩, r13)
    else some (⟨y, mo, da, h, mi, s, 0⟩, c :: r12)

/-- Parse a serialized `CollectsState` object. -/
def parseCollects (input : List Char) : Option (CollectsState × List Char) :=
  (expectChars ([lcurly] ++ jcStr "collection_id" ++ [':']) input).bind fun r1 =>
  (parseInt r1).bind fun (cid, r2) =>
  (expectChars ([','] ++ jcStr "page_info" ++ [':']) r2).bind fun r3 =>
  (parseOptStr r3).bind fun (pinfo, r4) =>
  (expectChars ([','] ++ jcStr "product_ids" ++ [':']) r4).bind fun r5 =>
  (parseIntList r5).bind fun (ids, r6) =>
  (expectChars [rcurly] r6).map fun r7 => (⟨cid, pinfo, ids⟩, r7)

/-- Parse one `"<int>": <CollectsState>` entry. -/
def parseCollectsEntry (input : List Char) :
    Option ((Int × CollectsState) × List Char) :=
  (expectChars ['"'] input).bind fun r1 =>
  (parseInt r1).bind fun (k, r2) =>
  (expectChars ['"', ':'] r2).bind fun r3 =>
  (parseCollects r3).map fun (cs, r4) => ((k, cs), r4)

/-- Parse the entries of the `collects_state` object after its opening brace
(fuel-indexed). -/
def parseCollectsMapAux : Nat → List Char →
    Option (List (Int × CollectsState) × List Char)
  | 0, _ => none
  | fuel + 1, input =>
    (parseCollectsEntry input).bind fun (e, r) =>
      match r with
      | ',' :: rest =>
        (parseCollectsMapAux fuel rest).map (fun q => (e :: q.1, q.2))
      | c :: rest => if c = rcurly then some ([e], rest) else none
      | [] => none

/-- Parse the serialized `collects_state` dict. -/
def parseCollectsMap (input : List Char) :
    Option (List (Int × CollectsState) × List Char) :=
  match input with
  | c :: c2 :: rest =>
    if c = lcurly then
      if c2 = rcurly then some ([], rest)
      else parseCollectsMapAux (rest.length + 1) (c2 :: rest)
    else none
  | _ => none

/-- Parse the full serialized checkpoint. -/
def parseCheckpointChars (input : List Char) : Option (Checkpoint × List Char) :=
  (expectChars ([lcurly] ++ jcStr "scope_hash" ++ [':', '"']) input).bind fun r1 =>
  (parseStrBody r1.length r1).bind fun (sh, r2) =>
  (expectChars ([','] ++ jcStr "page_info" ++ [':']) r2).bind fun r3 =>
  (parseOptStr r3).bind fun (pinfo, r4) =>
  (expectChars ([','] ++ jcStr "collects_state" ++ [':']) r4).bind fun r5 =>
  (parseCollectsMap r5).bind fun (m, r6) =>
  (expectChars ([','] ++ jcStr "seen_ids" ++ [':']) r6).bind fun r7 =>
  (parseIntList r7).bind fun (si, r8) =>
  (expectChars ([','] ++ jcStr "processed_count" ++ [':']) r8).bind fun r9 =>
  (parseInt r9).bind fun (pc, r10) =>
  (expectChars ([','] ++ jcStr "timestamp" ++ [':', '"']) r10).bind fun r11 =>
  (parseIso r11).bind fun (ts, r12) =>
  (expectChars ['"', rcurly] r12).map fun r13 =>
    (⟨String.mk sh, pinfo, m, si, pc, ts⟩, r13)

/-- The resume token of a checkpoint: base64 of the UTF-8 bytes of its
serialized JSON. -/
def encodeCheckpointToken (c : Checkpoint) : String :=
  String.mk (b64encode (utf8Encode (checkpointJson c)))

/-- `Job.get_resume_token` (src/models.py lines 163-170). -/
def Job.get_resume_token (j : Job) : Option String :=
  j.checkpoint.map encodeCheckpointToken

/-- `Job.decode_resume_token` (src/models.py lines 172-178): base64 decode,
UTF-8 decode, validate; any failure raises in Python and is `none` here. -/
def Job.decode_resume_token (tok : String) : Option Checkpoint :=
  (b64decode tok.data).bind fun bytes =>
  (utf8Decode bytes).bind fun chars =>
  (parseCheckpointChars chars).bind fun p =>
  if p.2 = [] then some p.1 else none

/-! ## The link verifier (src/link_checker.py) -/

/-- `LinkCheckResult` (src/link_checker.py lines 17-33). -/
structure LinkCheckResult where
  original_url : String
  final_url : Option String
  is_broken : Bool
  link_status : LinkStatus
  http_status : Option Nat
  was_redirected : Bool
  redirect_count : Nat
  error : Option String
  deriving DecidableEq

/-- Python truthiness of an `Optional[str]`: `None` and `""` are falsy. -/
def truthyStr : Option String → Bool
  | none => false
  | some s => decide (s ≠ "")

/-- `LinkCheckResult.classify_status` (src/link_checker.py lines 35-159).
The Python `was_redirected` is the raw value of
`redirect_count > 0 or (final_url and final_url != original_url)` — possibly
`None`/`""` — used only for its truthiness, embedded as that truthiness. -/
def LinkCheckResult.classify_status (original_url : String)
    (status_code : Option Nat) (final_url : Option String)
    (redirect_count : Nat) (error : Option String) (error_type : Option String) :
    LinkCheckResult :=
  let was_redirected :=
    decide (0 < redirect_count) ||
      (match final_url with
       | some f => decide (f ≠ "") && decide (f ≠ original_url)
       | none => false)
  if truthyStr error then
    let ls : LinkStatus :=
      if error_type = some "timeout" then .broken_timeout
      else if error_type = some "dns" then .broken_dns
      else if error_type = some "ssl" then .broken_ssl
      else if error_type = some "too_many_redirects" then .broken_too_many_redirects
      else .broken_other
    ⟨original_url, final_url, true, ls, status_code, was_redirected,
     redirect_count, error⟩
  else
    match status_code with
    | none =>
      ⟨original_url, final_url, true, .broken_other, none, was_redirected,
       redirect_count, some "No response received"⟩
    | some sc =>
      if 200 ≤ sc ∧ sc < 300 then
        ⟨original_url, final_url, false,
         if was_redirected then .redirected_ok else .ok, some sc,
         was_redirected, redirect_count, none⟩
      else if 300 ≤ sc ∧ sc < 400 then
        ⟨original_url, final_url, false, .redirected_ok, some sc, true,
         redirect_count, none⟩
      else if sc = 404 then
        ⟨original_url, final_url, true, .broken_not_found, some sc,
         was_redirected, redirect_count,
         some ("HTTP " ++ toString sc ++ " Not Found")⟩
      else if 400 ≤ sc ∧ sc < 500 then
        ⟨original_url, final_url, true, .broken_client_error, some sc,
         was_redirected, redirect_count,
         some ("HTTP " ++ toString sc ++ " Client Error")⟩
      else if 500 ≤ sc ∧ sc < 600 then
        ⟨original_url, final_url, true, .broken_server_error, some sc,
         was_redirected, redirect_count,
         some ("HTTP " ++ toString sc ++ " Server Error")⟩
      else
        ⟨original_url, final_url, true, .broken_other, some sc,
         was_redirected, redirect_count,
         some ("HTTP " ++ toString sc ++ " Unknown Status")⟩

/-- One outcome of `self.client.get(current_url)`: a response with a status
code and optional `Location` header, or one of the exception classes
`check_url` handles.  The message-content tests Python performs (`"ssl" in
str(e)`, the DNS markers in a `ConnectError`) are carried as the booleans
they produce. -/
inductive TransportOutcome
  | response (status : Nat) (location : Option String)
  | timeoutExc
  | connectExc (dnsMessage : Bool) (excName : String)
  | tooManyRedirectsExc
  | sslExc (message : String)
  | httpExc (sslInMessage : Bool) (excName : String)
  | otherExc (message : String)
  deriving DecidableEq

/-- The constructor arguments of `LinkChecker` (src/link_checker.py lines
167-196); the semaphore and connection pool are scheduling resources with no
bearing on a single check's value. -/
structure CheckerConfig where
  timeout_ms : Nat
  follow_redirects : Bool
  concurrency : Nat
  max_redirects : Nat

/-- Scheme characters after the first (`urlparse`). -/
def isSchemeChar (c : Char) : Bool :=
  c.isAlpha || c.isDigit || c = '+' || c = '-' || c = '.'

/-- `urllib.parse.urlparse`'s split into (lowercased scheme, rest): a scheme
is a leading alpha-started run of scheme characters before a `:`. -/
def urlSplitScheme (u : List Char) : List Char × List Char :=
  let pre := u.takeWhile (fun c => c ≠ ':')
  match u.dropWhile (fun c => c ≠ ':') with
  | ':' :: rest =>
    match pre with
    | c0 :: _ =>
      if c0.isAlpha && pre.all isSchemeChar then (pre.map Char.toLower, rest)
      else ([], u)
    | [] => ([], u)
  | _ => ([], u)

/-- `urlparse(u).scheme`. -/
def parsedScheme (u : String) : String := String.mk (urlSplitScheme u.data).1

/-- `urlparse(u).netloc`: after the scheme, a `//` introduces the netloc, up
to the next `/`, `?` or `#`. -/
def parsedNetloc (u : String) : String :=
  match (urlSplitScheme u.data).2 with
  | '/' :: '/' :: rest =>
    String.mk (rest.takeWhile (fun c => c ≠ '/' && c ≠ '?' && c ≠ '#'))
  | _ => ""

/-- `location.startswith("/")` as a test on the character data. -/
def startsWithSlash (s : String) : Bool :=
  match s.data with
  | c :: _ => c = '/'
  | [] => false

/-- The next URL `check_url` requests after reading a `Location` value:
values starting with `/` are joined to the current URL's scheme and netloc
(src/link_checker.py lines 280-285), everything else is used verbatim. -/
def resolveLocation (current_url loc : String) : String :=
  if startsWithSlash loc then
    parsedScheme current_url ++ "://" ++ parsedNetloc current_url ++ loc
  else loc

/-- The `while True` loop of `check_url` (src/link_checker.py lines 218-295)
over a transport that yields the outcome of the `k`-th GET.  Fuel-indexed;
`check_url_ok` below shows the wrapper's fuel always suffices, so the `none`
of exhaustion is never produced. -/
def checkLoop (transport : Nat → TransportOutcome) (cfg : CheckerConfig)
    (original_url : String) : Nat → Nat → String → Nat → Option LinkCheckResult
  | 0, _, _, _ => none
  | fuel + 1, k, current_url, redirect_count =>
    let finalIfMoved : Option String :=
      if current_url ≠ original_url then some current_url else none
    match transport k with
    | .timeoutExc =>
      some (LinkCheckResult.classify_status original_url none finalIfMoved
        redirect_count (some "Request timeout") (some "timeout"))
    | .connectExc dnsMessage excName =>
      if dnsMessage then
        some (LinkCheckResult.classify_status original_url none finalIfMoved
          redirect_count (some "DNS resolution failed") (some "dns"))
      else
        some (LinkCheckResult.classify_status original_url none finalIfMoved
          redirect_count (some ("Connection error: " ++ excName)) (some "other"))
    | .tooManyRedirectsExc =>
      some (LinkCheckResult.classify_status original_url none finalIfMoved
        redirect_count (some "Too many redirects") (some "too_many_redirects"))
    | .sslExc message =>
      some (LinkCheckResult.classify_status original_url none finalIfMoved
        redirect_count (some ("SSL error: " ++ message)) (some "ssl"))
    | .httpExc sslInMessage excName =>
      some (LinkCheckResult.classify_status original_url none finalIfMoved
        redirect_count (some ("HTTP error: " ++ excName))
        (some (if sslInMessage then "ssl" else "other")))
    | .otherExc message =>
      some (LinkCheckResult.classify_status original_url none finalIfMoved
        redirect_count (some ("Error: " ++ message)) (some "other"))
    | .response status location =>
      if 300 ≤ status ∧ status < 400 then
        if ¬ cfg.follow_redirects then
          some (LinkCheckResult.classify_status original_url (some status)
            location redirect_count none none)
        else
          let rc2 := redirect_count + 1
          if cfg.max_redirects < rc2 then
            some (LinkCheckResult.classify_status original_url (some status)
              (some current_url) rc2
              (some ("Too many redirects (" ++ toString rc2 ++ ")"))
              (some "too_many_redirects"))
          else if truthyStr location = false then
            some (LinkCheckResult.classify_status original_url (some status)
              (some current_url) rc2
              (some "Redirect without location header") (some "other"))
          else
            checkLoop transport cfg original_url fuel (k + 1)
              (resolveLocation current_url (location.getD "")) rc2
      else
        some (LinkCheckResult.classify_status original_url (some status)
          finalIfMoved redirect_count none none)

/-- `LinkChecker.check_url` (src/link_checker.py lines 202-339). -/
def LinkChecker.check_url (transport : Nat → TransportOutcome)
    (cfg : CheckerConfig) (url : String) : Option LinkCheckResult :=
  checkLoop transport cfg url (cfg.max_redirects + 2) 0 url 0

/-- The sequence of URLs `check_url` issues GETs against, in order (same
recursion structure as `checkLoop`). -/
def requestTraceAux (transport : Nat → TransportOutcome) (cfg : CheckerConfig) :
    Nat → Nat → Nat → List String → List String
  | 0, _, _, _ => []
  | fuel + 1, k, redirect_count, urls =>
    match urls with
    | [] => []
    | current_url :: _ =>
      current_url ::
        (match transport k with
         | .response status location =>
           if 300 ≤ status ∧ status < 400 then
             if ¬ cfg.follow_redirects then []
             else
               let rc2 := redirect_count + 1
               if cfg.max_redirects < rc2 then []
               else if truthyStr location = false then []
               else
                 requestTraceAux transport cfg fuel (k + 1) rc2
                   [resolveLocation current_url (location.getD "")]
           else []
         | _ => [])

/-- The URLs requested by one `check_url` call, in order. -/
def checkUrlTrace (transport : Nat → TransportOutcome) (cfg : CheckerConfig)
    (url : String) : List String :=
  requestTraceAux transport cfg (cfg.max_redirects + 2) 0 0 [url]

/-! ## The job manager (src/job_manager.py) -/

/-- All-zero job statistics (the pydantic defaults). -/
def zeroStats : JobStats := ⟨0, 0, 0, 0, 0, 0, 0, 0, 0, 0, 0, 0⟩

/-- `JobManager.create_job` (src/job_manager.py lines 37-56): a fresh pending
job; when a resume token is configured, decode it and attach the checkpoint
only if its scope hash matches the config's, logging (and otherwise
ignoring) a mismatch or a decode failure.  The generated `uuid4` is taken as
the argument `job_id`. -/
def JobManager.create_job (job_id : String) (config : JobConfig) : Job :=
  let base : Job := ⟨job_id, config, .pending, zeroStats, [], none, none⟩
  match config.resume_token with
  | none => base
  | some tok =>
    match Job.decode_resume_token tok with
    | none => base
    | some cp =>
      if cp.scope_hash = config.get_scope_hash then
        { base with checkpoint := some cp }
      else base

/-- The fresh checkpoint `run_job` builds when none was restored
(src/job_manager.py lines 154-159); `now` stands for the
`datetime.utcnow()` default of the `timestamp` field. -/
def freshCheckpoint (config : JobConfig) (now : PyDateTime) : Checkpoint :=
  ⟨config.get_scope_hash, none, [], [], 0, now⟩

/-- The checkpoint `run_job` proceeds with: the restored one if present,
otherwise a fresh one (src/job_manager.py lines 152-161). -/
def runJobCheckpoint (j : Job) (now : PyDateTime) : Checkpoint :=
  match j.checkpoint with
  | some cp => cp
  | none => freshCheckpoint j.config now

/-- The fields of a product record `_process_product` reads (`id`, `title`,
`status`, `handle`, `images[0].src`). -/
structure ProductInfo where
  id : Int
  title : String
  status : String
  handle : String
  image : Option String

/-- Append a product id to the checkpoint's seen list
(`job.checkpoint.seen_ids.append`). -/
def appendSeen (j : Job) (pid : Int) : Job :=
  { j with checkpoint :=
      j.checkpoint.map (fun cp => { cp with seen_ids := cp.seen_ids ++ [pid] }) }

/-- The synthetic no-URL ledger row (src/job_manager.py lines 279-295 and
301-317). -/
def noUrlRow (p : ProductInfo) (config : JobConfig) : CheckResult :=
  ⟨p.id, p.title, p.status, p.handle, p.image, config.ns ++ "." ++ config.key,
   "", none, none, .no_url, false, false, 0, none, .no_urls⟩

/-- The OK/redirected tally over a product's check results
(src/job_manager.py lines 357-363). -/
def okTally (s : JobStats) (rs : List LinkCheckResult) : JobStats :=
  rs.foldl (fun s r =>
    if r.link_status = .ok then { s with ok_url_count := s.ok_url_count + 1 }
    else if r.link_status = .redirected_ok then
      { s with redirected_ok_count := s.redirected_ok_count + 1 }
    else s) s

/-- `JobManager._process_product` (src/job_manager.py lines 242-393).  The
awaited collaborators are parameters: `metafield_value` is what
`_get_metafield_value` returned, `checkFn` the per-URL verifier
(`check_urls` preserves input order), and `mutationOk` whether
`update_product_status` succeeded or raised.  Returns the updated job, the
updated seen set and the rows appended for this product. -/
def JobManager.process_product (product : ProductInfo) (config : JobConfig)
    (metafield_value : Option String) (checkFn : String → LinkCheckResult)
    (mutationOk : Bool) (job : Job) (seen_ids : List Int) :
    Job × List Int × List CheckResult :=
  if seen_ids.contains product.id then (job, seen_ids, [])
  else
    let seen2 := product.id :: seen_ids
    let job1 := appendSeen job product.id
    let noUrlReturn : Job × List Int × List CheckResult :=
      let row := noUrlRow product config
      ({ job1 with
          results := job1.results ++ [row],
          stats := { job1.stats with
            processed := job1.stats.processed + 1,
            no_url_count := job1.stats.no_url_count + 1 } }, seen2, [row])
    if truthyStr metafield_value = false then noUrlReturn
    else
      let urls := extract_urls (metafield_value.getD "")
      if urls = [] then noUrlReturn
      else
        let check_results := urls.map checkFn
        let has_broken := check_results.any (fun r => r.is_broken)
        let stats0 := job1.stats
        let actionStats : ActionType × JobStats :=
          if has_broken then
            let sb := { stats0 with
              broken_url_count := stats0.broken_url_count + 1 }
            if product.status = "draft" then (.already_draft, sb)
            else if product.status = "archived" then (.already_archived, sb)
            else if config.dry_run then
              if config.broken_action = .archive then (.would_archive, sb)
              else (.would_draft, sb)
            else if config.auto_action then
              if config.broken_action = .archive then
                if mutationOk then
                  (.archived, { sb with archived_count := sb.archived_count + 1 })
                else (.error, { sb with errors_count := sb.errors_count + 1 })
              else if config.broken_action = .draft then
                if mutationOk then
                  (.drafted, { sb with drafted_count := sb.drafted_count + 1 })
                else (.error, { sb with errors_count := sb.errors_count + 1 })
              else (.ignored, { sb with ignored_count := sb.ignored_count + 1 })
            else (.no_action, sb)
          else (.no_action, okTally stats0 check_results)
        let rows := check_results.map (fun cr =>
          (⟨product.id, product.title, product.status, product.handle,
            product.image, config.ns ++ "." ++ config.key, cr.original_url,
            cr.final_url, cr.http_status, cr.link_status, cr.is_broken,
            cr.was_redirected, cr.redirect_count, cr.error,
            actionStats.1⟩ : CheckResult))
        let stats2 : JobStats := { actionStats.2 with
          processed := actionStats.2.processed + 1 }
        let job2 : Job := { job1 with stats := stats2, results := job1.results ++ rows }
        let cp2 := job2.checkpoint.map
          (fun cp => { cp with processed_count := (stats2.processed : Int) })
        let job3 :=
          if stats2.processed % 100 = 0 then { job2 with checkpoint := cp2 }
          else job2
        (job3, seen2, rows)

/-! ## Scope-fingerprint properties -/

/-- Sorting with `pySorted` yields a `≤`-sorted list. -/
theorem pySorted_sorted (l : List Int) : List.Sorted (· ≤ ·) (pySorted l) := by
  have h := @List.sorted_mergeSort Int (fun a b => decide (a ≤ b))
    (fun a b c hab hbc => by
      simp only [decide_eq_true_eq] at hab hbc ⊢; omega)
    (fun a b => by by_cases h : a ≤ b <;> (simp [h]; try omega)) l
  exact h.imp (fun hab => by simpa using hab)

/-- Permuted integer lists have equal `pySorted` forms. -/
theorem pySorted_eq_of_perm {l1 l2 : List Int} (h : l1.Perm l2) :
    pySorted l1 = pySorted l2 := by
  apply List.eq_of_perm_of_sorted
    (((List.mergeSort_perm l1 _).trans h).trans (List.mergeSort_perm l2 _).symm)
    (pySorted_sorted l1) (pySorted_sorted l2)

/-- Helper: the serialized scope is unchanged under permutation of the
collection-ID list. -/
theorem scopeJson_perm {l1 l2 : List Int} (shop : String)
    (status : ProductStatus) (ns key : String) (h : l1.Perm l2) :
    scopeJson shop status ns key (some l1) = scopeJson shop status ns key (some l2) := by
  cases l1 with
  | nil =>
    have : l2 = [] := h.nil_eq.symm
    subst this; rfl
  | cons a t =>
    cases l2 with
    | nil => exact absurd h.symm.nil_eq (by simp)
    | cons b t2 =>
      simp only [scopeJson]
      rw [pySorted_eq_of_perm h]

/-- C3: for every shop, status, namespace, key and every pair of collection-ID
lists that are permutations of one another, `compute_scope_hash` returns the
same value; in particular the fingerprint of `[123, 456]` equals the
fingerprint of `[456, 123]`. -/
theorem compute_scope_hash_perm_invariant (shop : String)
    (status : ProductStatus) (ns key : String) (l1 l2 : List Int)
    (h : l1.Perm l2) :
    Checkpoint.compute_scope_hash shop status ns key (some l1) =
        Checkpoint.compute_scope_hash shop status ns key (some l2) ∧
      Checkpoint.compute_scope_hash shop status ns key (some [123, 456]) =
        Checkpoint.compute_scope_hash shop status ns key (some [456, 123]) := by
  constructor
  · unfold Checkpoint.compute_scope_hash
    rw [scopeJson_perm shop status ns key h]
  · unfold Checkpoint.compute_scope_hash
    rw [scopeJson_perm shop status ns key (List.Perm.swap 456 123 [])]

/-- Witness for C3 at a concrete scope and the permutation
`[123, 456] ~ [456, 123]`. -/
theorem compute_scope_hash_perm_invariant_witness :
    Checkpoint.compute_scope_hash "shop.myshopify.com" ProductStatus.active
        "custom" "video_url" (some [123, 456]) =
      Checkpoint.compute_scope_hash "shop.myshopify.com" ProductStatus.active
        "custom" "video_url" (some [456, 123]) :=
  (compute_scope_hash_perm_invariant "shop.myshopify.com" ProductStatus.active
    "custom" "video_url" [123, 456] [456, 123] (List.Perm.swap 456 123 [])).1

/-- C10: for every shop, status, namespace and key, `compute_scope_hash` with
an empty collection-ID list returns the same fingerprint as with `None`
(Python truthiness makes `sorted(ids) if ids else None` collapse `[]` to
`None`), so a resume token produced under one scope validates against a job
configured with the other. -/
theorem compute_scope_hash_empty_eq_none (shop : String)
    (status : ProductStatus) (ns key : String) :
    Checkpoint.compute_scope_hash shop status ns key (some []) =
      Checkpoint.compute_scope_hash shop status ns key none := rfl

/-! ## Link-verifier totality -/

/-- The redirect loop always produces a result when its fuel exceeds the
redirects it may still follow: the only recursive branch increments the
redirect counter toward the `max_redirects` cutoff. -/
theorem checkLoop_isSome (t : Nat → TransportOutcome) (cfg : CheckerConfig)
    (orig : String) :
    ∀ fuel k cur rc, cfg.max_redirects + 1 - rc < fuel →
      (checkLoop t cfg orig fuel k cur rc).isSome = true := by
  intro fuel
  induction fuel with
  | zero => intro k cur rc h; omega
  | succ n ih =>
    intro k cur rc h
    rcases htk : t k with ⟨s, loc⟩ | _ | ⟨dm, en⟩ | _ | m | ⟨si, en⟩ | m <;>
      simp only [checkLoop, htk]
    case response =>
      split
      case isTrue h3xx =>
        split
        case isTrue => rfl
        case isFalse hfol =>
          split
          case isTrue => rfl
          case isFalse hmax =>
            split
            case isTrue => rfl
            case isFalse => exact ih (k + 1) _ (rc + 1) (by omega)
      case isFalse => rfl
    case timeoutExc => rfl
    case connectExc => split <;> rfl
    case tooManyRedirectsExc => rfl
    case sslExc => rfl
    case httpExc => rfl
    case otherExc => rfl

/-- C6: `check_url` is total over every transport behaviour — for every URL
and every sequence of response statuses, missing headers, timeouts,
connection errors, SSL errors or other exceptions the transport produces, it
returns a `LinkCheckResult` (no exception escapes and the fuel of the
embedded loop never runs out). -/
theorem check_url_total (t : Nat → TransportOutcome) (cfg : CheckerConfig)
    (url : String) :
    ∃ r : LinkCheckResult, LinkChecker.check_url t cfg url = some r := by
  have h := checkLoop_isSome t cfg url (cfg.max_redirects + 2) 0 url 0 (by omega)
  exact Option.isSome_iff_exists.mp h

/-! ## The verifier's classification table -/

/-- Fields of a 2xx classification. -/
theorem classify_2xx (orig : String) (s : Nat) (fin : Option String) (rc : Nat)
    (h1 : 200 ≤ s) (h2 : s < 300) :
    (LinkCheckResult.classify_status orig (some s) fin rc none none).is_broken
        = false ∧
      (LinkCheckResult.classify_status orig (some s) fin rc none
        none).redirect_count = rc ∧
      (0 < rc →
        (LinkCheckResult.classify_status orig (some s) fin rc none
          none).link_status = .redirected_ok) := by
  unfold LinkCheckResult.classify_status
  simp only [truthyStr, ne_eq, decide_not, if_pos (And.intro h1 h2)]
  refine ⟨rfl, rfl, fun hrc => ?_⟩
  simp [hrc]

/-- A followed chain of `N` in-budget redirect hops ending in a 2xx resolves
to a not-broken result with redirect count `rc + N`, `redirected-OK` whenever
at least one hop occurred. -/
theorem checkLoop_chain (t : Nat → TransportOutcome) (cfg : CheckerConfig)
    (orig : String) (st : Nat → Nat) (lo : Nat → String)
    (hfol : cfg.follow_redirects = true) :
    ∀ N fuel k cur rc,
      (∀ i, i < N → t (k + i) = .response (st (k + i)) (some (lo (k + i))) ∧
        300 ≤ st (k + i) ∧ st (k + i) < 400 ∧ lo (k + i) ≠ "") →
      rc + N ≤ cfg.max_redirects → N < fuel →
      ∀ s2 loc2, t (k + N) = .response s2 loc2 → 200 ≤ s2 → s2 < 300 →
      ∃ r, checkLoop t cfg orig fuel k cur rc = some r ∧
        r.is_broken = false ∧ r.redirect_count = rc + N ∧
        (0 < rc + N → r.link_status = .redirected_ok) := by
  intro N
  induction N with
  | zero =>
    intro fuel k cur rc hchain hmax hfuel s2 loc2 hfin hs1 hs2
    obtain ⟨f, rfl⟩ : ∃ f, fuel = f + 1 := ⟨fuel - 1, by omega⟩
    rw [Nat.add_zero] at hfin
    simp only [checkLoop, hfin]
    rw [if_neg (by omega)]
    rw [Nat.add_zero]
    exact ⟨_, rfl, classify_2xx orig s2 _ rc hs1 hs2⟩
  | succ N ih =>
    intro fuel k cur rc hchain hmax hfuel s2 loc2 hfin hs1 hs2
    obtain ⟨f, rfl⟩ : ∃ f, fuel = f + 1 := ⟨fuel - 1, by omega⟩
    obtain ⟨hres, h3a, h3b, hlo⟩ := hchain 0 (by omega)
    rw [Nat.add_zero] at hres h3a h3b hlo
    simp only [checkLoop, hres]
    rw [if_pos (And.intro h3a h3b), if_neg (by rw [hfol]; simp),
      if_neg (by omega : ¬ cfg.max_redirects < rc + 1),
      if_neg (by simp [truthyStr, hlo])]
    have hchain' : ∀ i, i < N →
        t (k + 1 + i) = .response (st (k + 1 + i)) (some (lo (k + 1 + i))) ∧
          300 ≤ st (k + 1 + i) ∧ st (k + 1 + i) < 400 ∧ lo (k + 1 + i) ≠ "" := by
      intro i hi
      have := hchain (i + 1) (by omega)
      rwa [show k + (i + 1) = k + 1 + i by omega] at this
    have hfin' : t (k + 1 + N) = .response s2 loc2 := by
      rwa [show k + 1 + N = k + (N + 1) by omega]
    obtain ⟨r, hr, hb, hrc, hls⟩ :=
      ih f (k + 1) (resolveLocation cur ((some (lo k)).getD "")) (rc + 1)
        hchain' (by omega) (by omega) s2 loc2 hfin' hs1 hs2
    refine ⟨r, hr, hb, by omega, fun _ => hls (by omega)⟩

/-- A followed chain of 3xx hops that outlives the redirect budget aborts
with the too-many-redirects broken classification, counting
`max_redirects + 1` hops. -/
theorem checkLoop_exceed (t : Nat → TransportOutcome) (cfg : CheckerConfig)
    (orig : String) (st : Nat → Nat) (lo : Nat → String)
    (hfol : cfg.follow_redirects = true) :
    ∀ fuel k cur rc, rc ≤ cfg.max_redirects →
      cfg.max_redirects - rc < fuel →
      (∀ i, rc + i ≤ cfg.max_redirects →
        t (k + i) = .response (st (k + i)) (some (lo (k + i))) ∧
          300 ≤ st (k + i) ∧ st (k + i) < 400 ∧ lo (k + i) ≠ "") →
      ∃ r, checkLoop t cfg orig fuel k cur rc = some r ∧
        r.is_broken = true ∧ r.link_status = .broken_too_many_redirects ∧
        r.redirect_count = cfg.max_redirects + 1 := by
  intro fuel
  induction fuel with
  | zero => intro k cur rc _ h; omega
  | succ f ih =>
    intro k cur rc hrc hfuel hchain
    obtain ⟨hres, h3a, h3b, hlo⟩ := hchain 0 (by omega)
    rw [Nat.add_zero] at hres h3a h3b hlo
    simp only [checkLoop, hres]
    rw [if_pos (And.intro h3a h3b), if_neg (by rw [hfol]; simp)]
    by_cases hcut : cfg.max_redirects < rc + 1
    · rw [if_pos hcut]
      have hrceq : rc = cfg.max_redirects := by omega
      have hne : ("Too many redirects (" ++ toString (cfg.max_redirects + 1) ++
          ")" : String) ≠ "" := by
        intro hc
        have h20 := congrArg String.length hc
        rw [String.length_append, String.length_append] at h20
        have e1 : (")" : String).length = 1 := rfl
        have e2 : ("" : String).length = 0 := rfl
        omega
      refine ⟨_, rfl, ?_⟩
      unfold LinkCheckResult.classify_status
      simp [truthyStr, hrceq, hne]
    · rw [if_neg hcut, if_neg (by simp [truthyStr, hlo])]
      have hchain' : ∀ i, rc + 1 + i ≤ cfg.max_redirects →
          t (k + 1 + i) = .response (st (k + 1 + i)) (some (lo (k + 1 + i))) ∧
            300 ≤ st (k + 1 + i) ∧ st (k + 1 + i) < 400 ∧ lo (k + 1 + i) ≠ "" := by
        intro i hi
        have := hchain (i + 1) (by omega)
        rwa [show k + (i + 1) = k + 1 + i by omega] at this
      exact ih (k + 1) (resolveLocation cur ((some (lo k)).getD "")) (rc + 1)
        (by omega) (by omega) hchain'

/-- A first-response return: a non-3xx first response makes `check_url`
classify immediately with no hops. -/
theorem check_url_first (t : Nat → TransportOutcome) (cfg : CheckerConfig)
    (url : String) (s : Nat) (loc : Option String)
    (h0 : t 0 = .response s loc) (hn3 : ¬(300 ≤ s ∧ s < 400)) :
    LinkChecker.check_url t cfg url =
      some (LinkCheckResult.classify_status url (some s) none 0 none none) := by
  unfold LinkChecker.check_url
  have hf : cfg.max_redirects + 2 = (cfg.max_redirects + 1) + 1 := rfl
  rw [hf]
  simp only [checkLoop, h0]
  rw [if_neg hn3, if_neg (fun hc => hc rfl)]

/-- A 3xx first response with redirect-following disabled makes `check_url`
classify immediately, with the `Location` header as final URL. -/
theorem check_url_first_3xx_nofollow (t : Nat → TransportOutcome)
    (cfg : CheckerConfig) (url : String) (s : Nat) (loc : Option String)
    (h0 : t 0 = .response s loc) (h3 : 300 ≤ s ∧ s < 400)
    (hfol : cfg.follow_redirects = false) :
    LinkChecker.check_url t cfg url =
      some (LinkCheckResult.classify_status url (some s) loc 0 none none) := by
  unfold LinkChecker.check_url
  have hf : cfg.max_redirects + 2 = (cfg.max_redirects + 1) + 1 := rfl
  rw [hf]
  simp only [checkLoop, h0]
  rw [if_pos h3, if_pos (by rw [hfol]; simp)]

/-- The classification of a 2xx with no hop and no move is plain OK. -/
theorem classify_2xx_fresh (orig : String) (s : Nat) (h1 : 200 ≤ s)
    (h2 : s < 300) :
    (LinkCheckResult.classify_status orig (some s) none 0 none
        none).link_status = .ok ∧
      (LinkCheckResult.classify_status orig (some s) none 0 none
        none).is_broken = false := by
  unfold LinkCheckResult.classify_status
  simp [truthyStr, h1, h2]

/-- The classification of a 3xx (as `classify_status` receives one only with
redirect-following disabled) is `redirected-OK`, not broken. -/
theorem classify_3xx (orig : String) (s : Nat) (fin : Option String) (rc : Nat)
    (h1 : 300 ≤ s) (h2 : s < 400) :
    (LinkCheckResult.classify_status orig (some s) fin rc none
        none).link_status = .redirected_ok ∧
      (LinkCheckResult.classify_status orig (some s) fin rc none
        none).is_broken = false := by
  have e1 : ¬(200 ≤ s ∧ s < 300) := by omega
  unfold LinkCheckResult.classify_status
  simp [truthyStr, e1, h1, h2]

/-- The classification of a 404. -/
theorem classify_404 (orig : String) (fin : Option String) (rc : Nat) :
    (LinkCheckResult.classify_status orig (some 404) fin rc none
        none).link_status = .broken_not_found ∧
      (LinkCheckResult.classify_status orig (some 404) fin rc none
        none).is_broken = true := by
  unfold LinkCheckResult.classify_status
  simp [truthyStr]

/-- The classification of a non-404 4xx. -/
theorem classify_4xx (orig : String) (s : Nat) (fin : Option String) (rc : Nat)
    (h1 : 400 ≤ s) (h2 : s < 500) (h3 : s ≠ 404) :
    (LinkCheckResult.classify_status orig (some s) fin rc none
        none).link_status = .broken_client_error ∧
      (LinkCheckResult.classify_status orig (some s) fin rc none
        none).is_broken = true := by
  have e1 : ¬(200 ≤ s ∧ s < 300) := by omega
  have e2 : ¬(300 ≤ s ∧ s < 400) := by omega
  unfold LinkCheckResult.classify_status
  simp [truthyStr, e1, e2, h1, h2, h3]

/-- The classification of a 5xx. -/
theorem classify_5xx (orig : String) (s : Nat) (fin : Option String) (rc : Nat)
    (h1 : 500 ≤ s) (h2 : s < 600) :
    (LinkCheckResult.classify_status orig (some s) fin rc none
        none).link_status = .broken_server_error ∧
      (LinkCheckResult.classify_status orig (some s) fin rc none
        none).is_broken = true := by
  have e1 : ¬(200 ≤ s ∧ s < 300) := by omega
  have e2 : ¬(300 ≤ s ∧ s < 400) := by omega
  have e3 : s ≠ 404 := by omega
  have e4 : ¬(400 ≤ s ∧ s < 500) := by omega
  unfold LinkCheckResult.classify_status
  simp [truthyStr, e1, e2, e3, e4, h1, h2]

/-- A timeout on the first GET classifies as broken/timeout. -/
theorem check_url_timeout (t : Nat → TransportOutcome) (cfg : CheckerConfig)
    (url : String) (h0 : t 0 = .timeoutExc) :
    LinkChecker.check_url t cfg url =
      some (LinkCheckResult.classify_status url none none 0
        (some "Request timeout") (some "timeout")) ∧
      (LinkCheckResult.classify_status url none none 0 (some "Request timeout")
        (some "timeout")).link_status = .broken_timeout ∧
      (LinkCheckResult.classify_status url none none 0 (some "Request timeout")
        (some "timeout")).is_broken = true := by
  refine ⟨?_, by unfold LinkCheckResult.classify_status; simp [truthyStr], by
    unfold LinkCheckResult.classify_status; simp [truthyStr]⟩
  unfold LinkChecker.check_url
  have hf : cfg.max_redirects + 2 = (cfg.max_redirects + 1) + 1 := rfl
  rw [hf]
  simp only [checkLoop, h0]
  rw [if_neg (fun hc => hc rfl)]

/-- `is_broken` agrees with the broken classification tags on every output of
`classify_status`. -/
theorem classify_isBroken_iff (orig : String) (sc : Option Nat)
    (fin : Option String) (rc : Nat) (err et : Option String) :
    (LinkCheckResult.classify_status orig sc fin rc err et).is_broken =
      (LinkCheckResult.classify_status orig sc fin rc err
        et).link_status.isBrokenTag := by
  unfold LinkCheckResult.classify_status
  by_cases he : truthyStr err = true
  · rw [if_pos he]
    by_cases h1 : et = some "timeout"
    · simp [h1, LinkStatus.isBrokenTag]
    by_cases h2 : et = some "dns"
    · simp [h1, h2, LinkStatus.isBrokenTag]
    by_cases h3 : et = some "ssl"
    · simp [h1, h2, h3, LinkStatus.isBrokenTag]
    by_cases h4 : et = some "too_many_redirects"
    · simp [h1, h2, h3, h4, LinkStatus.isBrokenTag]
    · simp [h1, h2, h3, h4, LinkStatus.isBrokenTag]
  · rw [if_neg he]
    cases sc with
    | none => rfl
    | some s =>
      by_cases c1 : 200 ≤ s ∧ s < 300
      · simp only [if_pos c1]
        by_cases hw : (decide (0 < rc) ||
            match fin with
            | some f => decide (f ≠ "") && decide (f ≠ orig)
            | none => false) = true
        · simp only [hw, if_pos]
          rfl
        · simp only [Bool.not_eq_true] at hw
          simp only [hw]
          rfl
      · simp only [if_neg c1]
        by_cases c2 : 300 ≤ s ∧ s < 400
        · simp only [if_pos c2]; rfl
        · simp only [if_neg c2]
          by_cases c3 : s = 404
          · simp only [if_pos c3]; rfl
          · simp only [if_neg c3]
            by_cases c4 : 400 ≤ s ∧ s < 500
            · simp only [if_pos c4]; rfl
            · simp only [if_neg c4]
              by_cases c5 : 500 ≤ s ∧ s < 600
              · simp only [if_pos c5]; rfl
              · simp only [if_neg c5]; rfl

/-- C1: the verifier's classification of a single URL check matches the
spec's table exactly: a final 2xx with no hops is OK/not-broken; a 3xx with
redirect-following disabled is redirected-OK/not-broken; a chain of
`N ≤ max_redirects` hops ending in 2xx is redirected-OK/not-broken; a chain
exceeding `max_redirects` is broken/too-many-redirects; 404 is
broken/not-found; any other 4xx is broken/client-error; 5xx is
broken/server-error; a connect timeout is broken/timeout; and `is_broken` is
true exactly for the broken classifications. -/
theorem check_url_classification_table :
    (∀ (t : Nat → TransportOutcome) (cfg : CheckerConfig) (url : String)
        (s : Nat) (loc : Option String),
      t 0 = .response s loc → 200 ≤ s → s < 300 →
      (LinkChecker.check_url t cfg url).map LinkCheckResult.link_status =
          some .ok ∧
        (LinkChecker.check_url t cfg url).map LinkCheckResult.is_broken =
          some false) ∧
    (∀ (t : Nat → TransportOutcome) (cfg : CheckerConfig) (url : String)
        (s : Nat) (loc : Option String),
      cfg.follow_redirects = false → t 0 = .response s loc →
      300 ≤ s → s < 400 →
      (LinkChecker.check_url t cfg url).map LinkCheckResult.link_status =
          some .redirected_ok ∧
        (LinkChecker.check_url t cfg url).map LinkCheckResult.is_broken =
          some false) ∧
    (∀ (t : Nat → TransportOutcome) (cfg : CheckerConfig) (url : String)
        (st : Nat → Nat) (lo : Nat → String) (N s2 : Nat) (loc2 : Option String),
      cfg.follow_redirects = true → 1 ≤ N → N ≤ cfg.max_redirects →
      (∀ i, i < N → t i = .response (st i) (some (lo i)) ∧
        300 ≤ st i ∧ st i < 400 ∧ lo i ≠ "") →
      t N = .response s2 loc2 → 200 ≤ s2 → s2 < 300 →
      (LinkChecker.check_url t cfg url).map LinkCheckResult.link_status =
          some .redirected_ok ∧
        (LinkChecker.check_url t cfg url).map LinkCheckResult.is_broken =
          some false) ∧
    (∀ (t : Nat → TransportOutcome) (cfg : CheckerConfig) (url : String)
        (st : Nat → Nat) (lo : Nat → String),
      cfg.follow_redirects = true →
      (∀ i, i ≤ cfg.max_redirects → t i = .response (st i) (some (lo i)) ∧
        300 ≤ st i ∧ st i < 400 ∧ lo i ≠ "") →
      (LinkChecker.check_url t cfg url).map LinkCheckResult.link_status =
          some .broken_too_many_redirects ∧
        (LinkChecker.check_url t cfg url).map LinkCheckResult.is_broken =
          some true) ∧
    (∀ (t : Nat → TransportOutcome) (cfg : CheckerConfig) (url : String)
        (loc : Option String),
      t 0 = .response 404 loc →
      (LinkChecker.check_url t cfg url).map LinkCheckResult.link_status =
          some .broken_not_found ∧
        (LinkChecker.check_url t cfg url).map LinkCheckResult.is_broken =
          some true) ∧
    (∀ (t : Nat → TransportOutcome) (cfg : CheckerConfig) (url : String)
        (s : Nat) (loc : Option String),
      t 0 = .response s loc → 400 ≤ s → s < 500 → s ≠ 404 →
      (LinkChecker.check_url t cfg url).map LinkCheckResult.link_status =
          some .broken_client_error ∧
        (LinkChecker.check_url t cfg url).map LinkCheckResult.is_broken =
          some true) ∧
    (∀ (t : Nat → TransportOutcome) (cfg : CheckerConfig) (url : String)
        (s : Nat) (loc : Option String),
      t 0 = .response s loc → 500 ≤ s → s < 600 →
      (LinkChecker.check_url t cfg url).map LinkCheckResult.link_status =
          some .broken_server_error ∧
        (LinkChecker.check_url t cfg url).map LinkCheckResult.is_broken =
          some true) ∧
    (∀ (t : Nat → TransportOutcome) (cfg : CheckerConfig) (url : String),
      t 0 = .timeoutExc →
      (LinkChecker.check_url t cfg url).map LinkCheckResult.link_status =
          some .broken_timeout ∧
        (LinkChecker.check_url t cfg url).map LinkCheckResult.is_broken =
          some true) ∧
    (∀ (orig : String) (sc : Option Nat) (fin : Option String) (rc : Nat)
        (err et : Option String),
      (LinkCheckResult.classify_status orig sc fin rc err et).is_broken =
        (LinkCheckResult.classify_status orig sc fin rc err
          et).link_status.isBrokenTag) := by
  refine ⟨?_, ?_, ?_, ?_, ?_, ?_, ?_, ?_, classify_isBroken_iff⟩
  · intro t cfg url s loc h0 h1 h2
    rw [check_url_first t cfg url s loc h0 (by omega)]
    have hc := classify_2xx_fresh url s h1 h2
    simp [Option.map, hc.1, hc.2]
  · intro t cfg url s loc hfol h0 h1 h2
    rw [check_url_first_3xx_nofollow t cfg url s loc h0 ⟨h1, h2⟩ hfol]
    have hc := classify_3xx url s loc 0 h1 h2
    simp [Option.map, hc.1, hc.2]
  · intro t cfg url st lo N s2 loc2 hfol hN hNmax hchain hfin hs1 hs2
    obtain ⟨r, hr, hb, hrc, hls⟩ := checkLoop_chain t cfg url st lo hfol N
      (cfg.max_redirects + 2) 0 url 0
      (fun i hi => by simpa using hchain i hi) (by omega) (by omega)
      s2 loc2 (by simpa using hfin) hs1 hs2
    unfold LinkChecker.check_url
    rw [hr]
    simp [Option.map, hb, hls (by omega)]
  · intro t cfg url st lo hfol hchain
    obtain ⟨r, hr, hb, hls, hrc⟩ := checkLoop_exceed t cfg url st lo hfol
      (cfg.max_redirects + 2) 0 url 0 (by omega) (by omega)
      (fun i hi => by simpa using hchain i (by omega))
    unfold LinkChecker.check_url
    rw [hr]
    simp [Option.map, hb, hls]
  · intro t cfg url loc h0
    rw [check_url_first t cfg url 404 loc h0 (by omega)]
    have hc := classify_404 url none 0
    simp [Option.map, hc.1, hc.2]
  · intro t cfg url s loc h0 h1 h2 h3
    rw [check_url_first t cfg url s loc h0 (by omega)]
    have hc := classify_4xx url s none 0 h1 h2 h3
    simp [Option.map, hc.1, hc.2]
  · intro t cfg url s loc h0 h1 h2
    rw [check_url_first t cfg url s loc h0 (by omega)]
    have hc := classify_5xx url s none 0 h1 h2
    simp [Option.map, hc.1, hc.2]
  · intro t cfg url h0
    obtain ⟨hr, hls, hb⟩ := check_url_timeout t cfg url h0
    rw [hr]
    simp [Option.map, hls, hb]

/-- Witness for C1: each row of the table exercised on a concrete transport
(a direct 200; a 301 with following disabled; a 2-hop 301 chain into a 200
under `max_redirects = 5`; an endless 302 chain; a 404; a 410; a 503; a
connect timeout), at `cfg = ⟨8000, ·, 20, 5⟩`. -/
theorem check_url_classification_table_witness :
    ((LinkChecker.check_url (fun _ => .response 200 none)
        ⟨8000, true, 20, 5⟩ "https://e.x/a").map LinkCheckResult.link_status =
          some .ok ∧
      (LinkChecker.check_url (fun _ => .response 200 none)
        ⟨8000, true, 20, 5⟩ "https://e.x/a").map LinkCheckResult.is_broken =
          some false) ∧
    ((LinkChecker.check_url (fun _ => .response 301 (some "https://n.x/"))
        ⟨8000, false, 20, 5⟩ "https://e.x/a").map LinkCheckResult.link_status =
          some .redirected_ok ∧
      (LinkChecker.check_url (fun _ => .response 301 (some "https://n.x/"))
        ⟨8000, false, 20, 5⟩ "https://e.x/a").map LinkCheckResult.is_broken =
          some false) ∧
    ((LinkChecker.check_url
        (fun k => if k < 2 then .response 301 (some "https://n.x/")
          else .response 200 none)
        ⟨8000, true, 20, 5⟩ "https://e.x/a").map LinkCheckResult.link_status =
          some .redirected_ok ∧
      (LinkChecker.check_url
        (fun k => if k < 2 then .response 301 (some "https://n.x/")
          else .response 200 none)
        ⟨8000, true, 20, 5⟩ "https://e.x/a").map LinkCheckResult.is_broken =
          some false) ∧
    ((LinkChecker.check_url (fun _ => .response 302 (some "/next"))
        ⟨8000, true, 20, 5⟩ "https://e.x/a").map LinkCheckResult.link_status =
          some .broken_too_many_redirects ∧
      (LinkChecker.check_url (fun _ => .response 302 (some "/next"))
        ⟨8000, true, 20, 5⟩ "https://e.x/a").map LinkCheckResult.is_broken =
          some true) ∧
    ((LinkChecker.check_url (fun _ => .response 404 none)
        ⟨8000, true, 20, 5⟩ "https://e.x/a").map LinkCheckResult.link_status =
          some .broken_not_found ∧
      (LinkChecker.check_url (fun _ => .response 404 none)
        ⟨8000, true, 20, 5⟩ "https://e.x/a").map LinkCheckResult.is_broken =
          some true) ∧
    ((LinkChecker.check_url (fun _ => .response 410 none)
        ⟨8000, true, 20, 5⟩ "https://e.x/a").map LinkCheckResult.link_status =
          some .broken_client_error ∧
      (LinkChecker.check_url (fun _ => .response 410 none)
        ⟨8000, true, 20, 5⟩ "https://e.x/a").map LinkCheckResult.is_broken =
          some true) ∧
    ((LinkChecker.check_url (fun _ => .response 503 none)
        ⟨8000, true, 20, 5⟩ "https://e.x/a").map LinkCheckResult.link_status =
          some .broken_server_error ∧
      (LinkChecker.check_url (fun _ => .response 503 none)
        ⟨8000, true, 20, 5⟩ "https://e.x/a").map LinkCheckResult.is_broken =
          some true) ∧
    ((LinkChecker.check_url (fun _ => .timeoutExc)
        ⟨8000, true, 20, 5⟩ "https://e.x/a").map LinkCheckResult.link_status =
          some .broken_timeout ∧
      (LinkChecker.check_url (fun _ => .timeoutExc)
        ⟨8000, true, 20, 5⟩ "https://e.x/a").map LinkCheckResult.is_broken =
          some true) ∧
    (LinkCheckResult.classify_status "https://e.x/a" (some 404) none 0 none
        none).is_broken =
      (LinkCheckResult.classify_status "https://e.x/a" (some 404) none 0 none
        none).link_status.isBrokenTag := by
  refine ⟨?_, ?_, ?_, ?_, ?_, ?_, ?_, ?_, ?_⟩
  · exact check_url_classification_table.1 _ _ _ 200 none rfl
      (by omega) (by omega)
  · exact check_url_classification_table.2.1 _ _ _ 301 (some "https://n.x/")
      rfl rfl (by omega) (by omega)
  · exact check_url_classification_table.2.2.1 _ _ _
      (fun _ => 301) (fun _ => "https://n.x/") 2 200 none rfl (by omega)
      (by decide) (by decide) (by decide) (by omega) (by omega)
  · exact check_url_classification_table.2.2.2.1 _ _ _
      (fun _ => 302) (fun _ => "/next") rfl (by decide)
  · exact check_url_classification_table.2.2.2.2.1 _ _ _ none rfl
  · exact check_url_classification_table.2.2.2.2.2.1 _ _ _ 410 none rfl
      (by omega) (by omega) (by omega)
  · exact check_url_classification_table.2.2.2.2.2.2.1 _ _ _ 503 none rfl
      (by omega) (by omega)
  · exact check_url_classification_table.2.2.2.2.2.2.2.1 _ _ _ rfl
  · exact check_url_classification_table.2.2.2.2.2.2.2.2 _ _ _ _ _ _

/-! ## Redirect `Location` resolution -/

/-- C8 (amended): when redirect-following is enabled and the first response
is a 3xx with a nonempty `Location`, the second requested URL is
`resolveLocation` of the current URL and that value: a `Location` beginning
with `/` is joined to the current URL's scheme and netloc, and any other
`Location` value — absolute or schemeless-relative — is requested
verbatim. -/
theorem check_url_location_resolution (t : Nat → TransportOutcome)
    (cfg : CheckerConfig) (url loc : String) (s : Nat)
    (hfol : cfg.follow_redirects = true) (hmax : 1 ≤ cfg.max_redirects)
    (h0 : t 0 = .response s (some loc)) (h3a : 300 ≤ s) (h3b : s < 400)
    (hloc : loc ≠ "") :
    (checkUrlTrace t cfg url)[1]? = some (resolveLocation url loc) ∧
      (startsWithSlash loc = true →
        (checkUrlTrace t cfg url)[1]? =
          some (parsedScheme url ++ "://" ++ parsedNetloc url ++ loc)) ∧
      (startsWithSlash loc = false →
        (checkUrlTrace t cfg url)[1]? = some loc) := by
  have key : (checkUrlTrace t cfg url)[1]? = some (resolveLocation url loc) := by
    unfold checkUrlTrace
    have hf : cfg.max_redirects + 2 = (cfg.max_redirects + 1) + 1 := rfl
    rw [hf]
    simp only [requestTraceAux, h0]
    rw [if_pos (And.intro h3a h3b), if_neg (by rw [hfol]; simp),
      if_neg (by omega : ¬ cfg.max_redirects < 0 + 1),
      if_neg (by simp [truthyStr, hloc])]
    have hg : cfg.max_redirects + 1 = cfg.max_redirects + 1 := rfl
    cases hm : cfg.max_redirects with
    | zero => omega
    | succ m =>
      simp only [requestTraceAux]
      simp
  refine ⟨key, fun hsl => ?_, fun hsl => ?_⟩
  · rw [key]
    unfold resolveLocation
    rw [if_pos hsl]
  · rw [key]
    unfold resolveLocation
    rw [if_neg (by rw [hsl]; simp)]

/-- The claim as stated fails: a schemeless-relative `Location` that does not
begin with `/` (here `b.html`, carrying no scheme) is requested verbatim, not
joined to the current URL's scheme and host. -/
theorem check_url_location_resolution_counterexample :
    (checkUrlTrace (fun _ => .response 301 (some "b.html"))
        ⟨8000, true, 20, 5⟩ "https://example.com/a")[1]? = some "b.html" ∧
      "b.html" ≠ parsedScheme "https://example.com/a" ++ "://" ++
        parsedNetloc "https://example.com/a" ++ "b.html" ∧
      schemeHeaded "b.html".data = false := by decide

/-- Witness for C8 (amended) at a root-relative and at a verbatim
`Location`. -/
theorem check_url_location_resolution_witness :
    (checkUrlTrace (fun _ => .response 301 (some "/next"))
        ⟨8000, true, 20, 5⟩ "https://example.com/a")[1]? =
      some (parsedScheme "https://example.com/a" ++ "://" ++
        parsedNetloc "https://example.com/a" ++ "/next") ∧
    (checkUrlTrace (fun _ => .response 301 (some "b.html"))
        ⟨8000, true, 20, 5⟩ "https://example.com/a")[1]? = some "b.html" :=
  ⟨(check_url_location_resolution (fun _ => .response 301 (some "/next"))
      ⟨8000, true, 20, 5⟩ "https://example.com/a" "/next" 301 rfl (by decide)
      rfl (by omega) (by omega) (by decide)).2.1 (by decide),
   (check_url_location_resolution (fun _ => .response 301 (some "b.html"))
      ⟨8000, true, 20, 5⟩ "https://example.com/a" "b.html" 301 rfl (by decide)
      rfl (by omega) (by omega) (by decide)).2.2 (by decide)⟩

/-! ## Resume validation and per-product mutation failures -/

/-- C4: when a job is created with a resume token that fails to decode, or
decodes to a checkpoint whose scope fingerprint differs from the job's
computed fingerprint, `create_job` attaches no checkpoint (and raises
nothing — it is total), and the checkpoint `run_job` then uses is fresh:
empty `seen_ids`, `processed_count` 0, and the job's own scope hash. -/
theorem resume_mismatch_starts_fresh (config : JobConfig) (job_id : String)
    (tok : String) (now : PyDateTime)
    (htok : config.resume_token = some tok)
    (hbad : Job.decode_resume_token tok = none ∨
      ∀ cp, Job.decode_resume_token tok = some cp →
        cp.scope_hash ≠ config.get_scope_hash) :
    (JobManager.create_job job_id config).checkpoint = none ∧
      (runJobCheckpoint (JobManager.create_job job_id config) now).seen_ids = [] ∧
      (runJobCheckpoint (JobManager.create_job job_id config)
        now).processed_count = 0 ∧
      (runJobCheckpoint (JobManager.create_job job_id config) now).scope_hash =
        config.get_scope_hash := by
  have hcp : (JobManager.create_job job_id config).checkpoint = none := by
    unfold JobManager.create_job
    rw [htok]
    rcases hd : Job.decode_resume_token tok with _ | cp
    · simp [hd]
    · rcases hbad with hnone | hmis
      · rw [hd] at hnone; exact absurd hnone (by simp)
      · simp only [hd]
        rw [if_neg (hmis cp hd)]
  have hcfg : (JobManager.create_job job_id config).config = config := by
    unfold JobManager.create_job
    rw [htok]
    rcases h2 : Job.decode_resume_token tok with _ | cp2
    · simp [h2]
    · simp only [h2]
      by_cases hh : cp2.scope_hash = config.get_scope_hash
      · rw [if_pos hh]
      · rw [if_neg hh]
  refine ⟨hcp, ?_, ?_, ?_⟩ <;>
    simp [runJobCheckpoint, hcp, hcfg, freshCheckpoint]

/-- Witness for C4: a config resuming from the undecodable token `"!!!"`. -/
theorem resume_mismatch_starts_fresh_witness :
    (JobManager.create_job "j1"
      ⟨"s.myshopify.com", "shpat", "custom", "video_url", ProductStatus.active,
        none, 250, 20, 8000, true, false, some "!!!", "2024-10", 5, false,
        ProductAction.draft, none⟩).checkpoint = none ∧
      (runJobCheckpoint (JobManager.create_job "j1"
        ⟨"s.myshopify.com", "shpat", "custom", "video_url", ProductStatus.active,
          none, 250, 20, 8000, true, false, some "!!!", "2024-10", 5, false,
          ProductAction.draft, none⟩) ⟨2024, 1, 1, 0, 0, 0, 0⟩).seen_ids = [] ∧
      (runJobCheckpoint (JobManager.create_job "j1"
        ⟨"s.myshopify.com", "shpat", "custom", "video_url", ProductStatus.active,
          none, 250, 20, 8000, true, false, some "!!!", "2024-10", 5, false,
          ProductAction.draft, none⟩) ⟨2024, 1, 1, 0, 0, 0, 0⟩).processed_count
        = 0 ∧
      (runJobCheckpoint (JobManager.create_job "j1"
        ⟨"s.myshopify.com", "shpat", "custom", "video_url", ProductStatus.active,
          none, 250, 20, 8000, true, false, some "!!!", "2024-10", 5, false,
          ProductAction.draft, none⟩) ⟨2024, 1, 1, 0, 0, 0, 0⟩).scope_hash =
        JobConfig.get_scope_hash
          ⟨"s.myshopify.com", "shpat", "custom", "video_url", ProductStatus.active,
            none, 250, 20, 8000, true, false, some "!!!", "2024-10", 5, false,
            ProductAction.draft, none⟩ :=
  resume_mismatch_starts_fresh
    ⟨"s.myshopify.com", "shpat", "custom", "video_url", ProductStatus.active,
      none, 250, 20, 8000, true, false, some "!!!", "2024-10", 5, false,
      ProductAction.draft, none⟩ "j1" "!!!" ⟨2024, 1, 1, 0, 0, 0, 0⟩ rfl
    (Or.inl (by decide))

/-- C7: during auto-action processing of a product with a broken link, a
failing catalog visibility mutation makes `_process_product` record
`action = error` on every one of that product's ledger rows, increment the
job's error counter by exactly one, and return normally with the rows (the
batch and job continue); the job's status is left untouched, so the failure
does not set it to FAILED. -/
theorem mutation_failure_records_error (product : ProductInfo)
    (config : JobConfig) (v : String) (checkFn : String → LinkCheckResult)
    (job : Job) (seen : List Int)
    (hseen : product.id ∉ seen)
    (hurls : extract_urls v ≠ [])
    (hbroken : ((extract_urls v).map checkFn).any (fun r => r.is_broken) = true)
    (hstat1 : product.status ≠ "draft") (hstat2 : product.status ≠ "archived")
    (hdry : config.dry_run = false) (hauto : config.auto_action = true)
    (haction : config.broken_action = .draft ∨ config.broken_action = .archive) :
    (∀ r ∈ (JobManager.process_product product config (some v) checkFn false
        job seen).2.2, r.action = ActionType.error) ∧
      (JobManager.process_product product config (some v) checkFn false job
          seen).2.2.length = (extract_urls v).length ∧
      (JobManager.process_product product config (some v) checkFn false job
          seen).1.stats.errors_count = job.stats.errors_count + 1 ∧
      (JobManager.process_product product config (some v) checkFn false job
          seen).1.status = job.status ∧
      (JobManager.process_product product config (some v) checkFn false job
          seen).1.results = job.results ++
        (JobManager.process_product product config (some v) checkFn false job
          seen).2.2 := by
  have hv : v ≠ "" := by
    intro h
    rw [h] at hurls
    exact hurls rfl
  unfold JobManager.process_product
  rw [if_neg (by simp [hseen])]
  rw [if_neg (by simp [truthyStr, hv])]
  simp only [Option.getD_some]
  rw [if_neg hurls]
  rw [if_pos hbroken]
  rw [if_neg hstat1, if_neg hstat2]
  rw [if_neg (show ¬(config.dry_run = true) from by simp [hdry])]
  rw [if_pos hauto]
  rcases haction with hba | hba
  · rw [if_neg (show ¬(config.broken_action = ProductAction.archive) from by
      rw [hba]; decide)]
    rw [if_pos hba]
    rw [if_neg (show ¬((false : Bool) = true) from by decide)]
    constructor
    · intro r hr
      simp only [List.mem_map] at hr
      obtain ⟨cr, _, rfl⟩ := hr
      rfl
    refine ⟨by simp, ?_, ?_, ?_⟩ <;>
      · dsimp only
        split <;> simp [appendSeen]
  · rw [if_pos hba]
    rw [if_neg (show ¬((false : Bool) = true) from by decide)]
    constructor
    · intro r hr
      simp only [List.mem_map] at hr
      obtain ⟨cr, _, rfl⟩ := hr
      rfl
    refine ⟨by simp, ?_, ?_, ?_⟩ <;>
      · dsimp only
        split <;> simp [appendSeen]

/-- A concrete config for exercising the mutation-failure path: auto-action
on, broken action `draft`, not a dry run. -/
def exCfg : JobConfig :=
  ⟨"s.myshopify.com", "shpat", "custom", "video_url", ProductStatus.active,
    none, 250, 20, 8000, true, false, none, "2024-10", 5, true,
    ProductAction.draft, none⟩

/-- A concrete active product. -/
def exProduct : ProductInfo := ⟨11, "Widget", "active", "widget", none⟩

/-- A concrete running job with zeroed counters. -/
def exJob : Job := ⟨"j1", exCfg, JobStatus.running, zeroStats, [], none, none⟩

/-- A verifier stub reporting every URL as a 404. -/
def exBrokenCheck (u : String) : LinkCheckResult :=
  ⟨u, none, true, LinkStatus.broken_not_found, some 404, false, 0,
   some "HTTP 404 Not Found"⟩

/-- Witness for C7 on the concrete fixture (one URL in the metafield, the
mutation raising). -/
theorem mutation_failure_records_error_witness :
    (∀ r ∈ (JobManager.process_product exProduct exCfg
        (some "https://a.example/x") exBrokenCheck false exJob []).2.2,
      r.action = ActionType.error) ∧
      (JobManager.process_product exProduct exCfg (some "https://a.example/x")
          exBrokenCheck false exJob []).2.2.length =
        (extract_urls "https://a.example/x").length ∧
      (JobManager.process_product exProduct exCfg (some "https://a.example/x")
          exBrokenCheck false exJob []).1.stats.errors_count =
        exJob.stats.errors_count + 1 ∧
      (JobManager.process_product exProduct exCfg (some "https://a.example/x")
          exBrokenCheck false exJob []).1.status = exJob.status ∧
      (JobManager.process_product exProduct exCfg (some "https://a.example/x")
          exBrokenCheck false exJob []).1.results = exJob.results ++
        (JobManager.process_product exProduct exCfg (some "https://a.example/x")
          exBrokenCheck false exJob []).2.2 :=
  mutation_failure_records_error exProduct exCfg "https://a.example/x"
    exBrokenCheck exJob [] (by simp) (by decide) (by decide) (by decide)
    (by decide) (by decide) (by decide) (Or.inl (by decide))

/-! ## Round-trip of the serialized checkpoint: digit layer -/

/-- Digit characters are digits with the expected code. -/
theorem digitChar_spec : ∀ m < 10, isDigitCh (digitChar m) = true ∧
    (digitChar m).toNat = 48 + m := by decide

/-- `natToChars` of a single-digit number. -/
theorem natToChars_lt10 (n : Nat) (h : n < 10) :
    natToChars n = [digitChar n] := by
  cases n with
  | zero => rfl
  | succ m => simp only [natToChars, natToCharsAux, if_pos h]

/-- One step of `natToCharsAux`. -/
theorem natToCharsAux_succ (fuel n : Nat) (acc : List Char) :
    natToCharsAux (fuel + 1) n acc =
      if n < 10 then digitChar n :: acc
      else natToCharsAux fuel (n / 10) (digitChar (n % 10) :: acc) := rfl

/-- `natToCharsAux` with enough fuel equals `natToChars` with the
accumulator appended. -/
theorem natToCharsAux_eq : ∀ n fuel acc, n < fuel →
    natToCharsAux fuel n acc = natToChars n ++ acc := by
  intro n
  induction n using Nat.strong_induction_on with
  | _ n ihn =>
    intro fuel acc hf
    obtain ⟨f, rfl⟩ : ∃ f, fuel = f + 1 := ⟨fuel - 1, by omega⟩
    by_cases h10 : n < 10
    · rw [natToCharsAux_succ, if_pos h10, natToChars_lt10 n h10]
      rfl
    · obtain ⟨m, rfl⟩ : ∃ m, n = m + 1 := ⟨n - 1, by omega⟩
      have hdiv : (m + 1) / 10 < m + 1 := Nat.div_lt_self (by omega) (by omega)
      rw [natToCharsAux_succ, if_neg h10]
      rw [ihn ((m + 1) / 10) hdiv f _ (by omega)]
      conv_rhs => rw [natToChars, natToCharsAux_succ, if_neg h10]
      rw [ihn ((m + 1) / 10) hdiv (m + 1) _ (by omega)]
      rw [List.append_assoc]
      rfl

/-- Unfolding of `natToChars` for two-digit-or-more numbers. -/
theorem natToChars_ten (n : Nat) (h10 : ¬ n < 10) :
    natToChars n = natToChars (n / 10) ++ [digitChar (n % 10)] := by
  obtain ⟨m, rfl⟩ : ∃ m, n = m + 1 := ⟨n - 1, by omega⟩
  conv_lhs => rw [natToChars, natToCharsAux_succ, if_neg h10]
  exact natToCharsAux_eq ((m + 1) / 10) (m + 1) _
    (Nat.div_lt_self (by omega) (by omega))

/-- Every character `natToChars` emits is a digit. -/
theorem natToChars_digits (n : Nat) :
    ∀ c ∈ natToChars n, isDigitCh c = true := by
  induction n using Nat.strong_induction_on with
  | _ n ih =>
    by_cases h10 : n < 10
    · rw [natToChars_lt10 n h10]
      intro c hc
      rw [List.mem_singleton] at hc
      subst hc
      exact (digitChar_spec n h10).1
    · rw [natToChars_ten n h10]
      intro c hc
      rcases List.mem_append.mp hc with hl | hr
      · exact ih (n / 10) (Nat.div_lt_self (by omega) (by omega)) c hl
      · rw [List.mem_singleton] at hr
        subst hr
        exact (digitChar_spec (n % 10) (Nat.mod_lt _ (by omega))).1

/-- `natToChars` is never empty. -/
theorem natToChars_ne_nil (n : Nat) : natToChars n ≠ [] := by
  by_cases h10 : n < 10
  · rw [natToChars_lt10 n h10]; simp
  · rw [natToChars_ten n h10]; simp

/-- Reading back the digits of `natToChars n` yields `n`. -/
theorem digitsToNat_natToChars (n : Nat) : digitsToNat (natToChars n) = n := by
  induction n using Nat.strong_induction_on with
  | _ n ih =>
    by_cases h10 : n < 10
    · rw [natToChars_lt10 n h10]
      simp [digitsToNat, (digitChar_spec n h10).2]
    · rw [natToChars_ten n h10]
      unfold digitsToNat
      rw [List.foldl_append]
      have hrec := ih (n / 10) (Nat.div_lt_self (by omega) (by omega))
      unfold digitsToNat at hrec
      rw [hrec]
      simp [(digitChar_spec (n % 10) (Nat.mod_lt _ (by omega))).2]
      omega

/-- `takeWhile` over an all-satisfying prefix followed by a failing head. -/
theorem takeWhile_all_app {p : Char → Bool} (xs ys : List Char)
    (h1 : ∀ x ∈ xs, p x = true) (h2 : ∀ y, ys.head? = some y → p y = false) :
    (xs ++ ys).takeWhile p = xs ∧ (xs ++ ys).dropWhile p = ys := by
  induction xs with
  | nil =>
    simp only [List.nil_append]
    cases ys with
    | nil => exact ⟨rfl, rfl⟩
    | cons y ys' =>
      have := h2 y rfl
      simp [List.takeWhile, List.dropWhile, this]
  | cons x xs' ih =>
    have hx := h1 x (by simp)
    have hrest := ih (fun z hz => h1 z (by simp [hz]))
    simp [List.takeWhile, List.dropWhile, hx, hrest.1, hrest.2]

/-- Head characters that stop a digit run. -/
def noDigitHead (l : List Char) : Prop :=
  ∀ c, l.head? = some c → isDigitCh c = false

/-- `parseNat` reads back exactly `natToChars n`. -/
theorem parseNat_natToChars (n : Nat) (rest : List Char)
    (h : noDigitHead rest) :
    parseNat (natToChars n ++ rest) = some (n, rest) := by
  have hsplit := takeWhile_all_app (natToChars n) rest (natToChars_digits n) h
  unfold parseNat
  rw [hsplit.1, hsplit.2]
  simp only [if_neg (natToChars_ne_nil n), digitsToNat_natToChars n]

/-- `parseInt` reads back exactly `intToChars i`. -/
theorem parseInt_intToChars (i : Int) (rest : List Char)
    (h : noDigitHead rest) :
    parseInt (intToChars i ++ rest) = some (i, rest) := by
  unfold intToChars
  by_cases hneg : i < 0
  · rw [if_pos hneg]
    simp only [List.cons_append, parseInt, if_pos rfl]
    rw [parseNat_natToChars i.natAbs rest h]
    have habs : -((i.natAbs : Nat) : Int) = i := by
      rw [Int.ofNat_natAbs_of_nonpos (by omega)]
      omega
    simp only [Option.map_some']
    rw [habs]
    simp
  · rw [if_neg hneg]
    have hne := natToChars_ne_nil i.toNat
    cases hx : natToChars i.toNat with
    | nil => exact absurd hx hne
    | cons a l =>
      have hadig : isDigitCh a = true := by
        have := natToChars_digits i.toNat
        rw [hx] at this
        exact this a (by simp)
      have hnd : ¬ a = '-' := by
        intro hcontra
        rw [hcontra] at hadig
        exact absurd hadig (by decide)
      simp only [List.cons_append, parseInt, if_neg hnd]
      rw [← List.cons_append, ← hx, parseNat_natToChars i.toNat rest h]
      simp [Int.toNat_of_nonneg (by omega : (0 : Int) ≤ i)]

/-- `expectChars` consumes exactly its pattern. -/
theorem expectChars_app (pre rest : List Char) :
    expectChars pre (pre ++ rest) = some rest := by
  induction pre with
  | nil => rfl
  | cons p ps ih =>
    simp only [List.cons_append, expectChars, if_pos, ih]
    exact ih

/-- Consuming a single expected character. -/
theorem expectChars_cons_self (c : Char) (rest : List Char) :
    expectChars [c] (c :: rest) = some rest := by
  simp [expectChars]

/-- Two fixed digits read back a value below 100. -/
theorem parseFixed2 (v : Nat) (rest : List Char) (hv : v < 100) :
    parseFixedAux 2 0 (pad2 v ++ rest) = some (v, rest) := by
  have d1 := digitChar_spec (v / 10 % 10) (Nat.mod_lt _ (by omega))
  have d0 := digitChar_spec (v % 10) (Nat.mod_lt _ (by omega))
  simp only [pad2, List.cons_append, List.nil_append, parseFixedAux,
    d1.1, d0.1, if_true, d1.2, d0.2]
  have hval : (0 * 10 + (48 + v / 10 % 10 - 48)) * 10 + (48 + v % 10 - 48) = v := by
    omega
  rw [hval]
  rfl

/-- Four fixed digits read back a value below 10000. -/
theorem parseFixed4 (v : Nat) (rest : List Char) (hv : v < 10000) :
    parseFixedAux 4 0 (pad4 v ++ rest) = some (v, rest) := by
  have d3 := digitChar_spec (v / 1000 % 10) (Nat.mod_lt _ (by omega))
  have d2 := digitChar_spec (v / 100 % 10) (Nat.mod_lt _ (by omega))
  have d1 := digitChar_spec (v / 10 % 10) (Nat.mod_lt _ (by omega))
  have d0 := digitChar_spec (v % 10) (Nat.mod_lt _ (by omega))
  simp only [pad4, List.cons_append, List.nil_append, parseFixedAux,
    d3.1, d2.1, d1.1, d0.1, if_true, d3.2, d2.2, d1.2, d0.2]
  have hval : (((0 * 10 + (48 + v / 1000 % 10 - 48)) * 10 +
      (48 + v / 100 % 10 - 48)) * 10 + (48 + v / 10 % 10 - 48)) * 10 +
      (48 + v % 10 - 48) = v := by
    omega
  rw [hval]
  rfl

/-- Six fixed digits read back a value below 1000000. -/
theorem parseFixed6 (v : Nat) (rest : List Char) (hv : v < 1000000) :
    parseFixedAux 6 0 (pad6 v ++ rest) = some (v, rest) := by
  have d5 := digitChar_spec (v / 100000 % 10) (Nat.mod_lt _ (by omega))
  have d4 := digitChar_spec (v / 10000 % 10) (Nat.mod_lt _ (by omega))
  have d3 := digitChar_spec (v / 1000 % 10) (Nat.mod_lt _ (by omega))
  have d2 := digitChar_spec (v / 100 % 10) (Nat.mod_lt _ (by omega))
  have d1 := digitChar_spec (v / 10 % 10) (Nat.mod_lt _ (by omega))
  have d0 := digitChar_spec (v % 10) (Nat.mod_lt _ (by omega))
  simp only [pad6, List.cons_append, List.nil_append, parseFixedAux,
    d5.1, d4.1, d3.1, d2.1, d1.1, d0.1, if_true, d5.2, d4.2, d3.2, d2.2,
    d1.2, d0.2]
  have hval : (((((0 * 10 + (48 + v / 100000 % 10 - 48)) * 10 +
      (48 + v / 10000 % 10 - 48)) * 10 + (48 + v / 1000 % 10 - 48)) * 10 +
      (48 + v / 100 % 10 - 48)) * 10 + (48 + v / 10 % 10 - 48)) * 10 +
      (48 + v % 10 - 48) = v := by
    omega
  rw [hval]
  rfl

/-- `parseIso` reads back exactly `isoChars d` for a representable
datetime, provided the remaining input does not begin with a dot. -/
theorem parseIso_isoChars (d : PyDateTime) (rest : List Char) (hv : d.Valid)
    (hdot : ∀ c, rest.head? = some c → c ≠ '.') :
    parseIso (isoChars d ++ rest) = some (d, rest) := by
  obtain ⟨h1, h2, h3, h4, h5, h6, h7, h8, h9, h10⟩ := hv
  unfold parseIso isoChars
  simp only [List.append_assoc, List.cons_append, List.nil_append]
  rw [parseFixed4 d.year _ (by omega)]
  simp only [Option.some_bind]
  rw [expectChars_cons_self]
  simp only [Option.some_bind]
  rw [parseFixed2 d.month _ (by omega)]
  simp only [Option.some_bind]
  rw [expectChars_cons_self]
  simp only [Option.some_bind]
  rw [parseFixed2 d.day _ (by omega)]
  simp only [Option.some_bind]
  rw [expectChars_cons_self]
  simp only [Option.some_bind]
  rw [parseFixed2 d.hour _ (by omega)]
  simp only [Option.some_bind]
  rw [expectChars_cons_self]
  simp only [Option.some_bind]
  rw [parseFixed2 d.minute _ (by omega)]
  simp only [Option.some_bind]
  rw [expectChars_cons_self]
  simp only [Option.some_bind]
  rw [parseFixed2 d.second _ (by omega)]
  simp only [Option.some_bind]
  by_cases hus : d.microsecond = 0
  · rw [if_pos hus]
    simp only [List.nil_append]
    cases hr : rest with
    | nil => rw [← hus]
    | cons c rs =>
      have hc := hdot c (by rw [hr]; rfl)
      simp only [if_neg hc]
      rw [← hus]
  · rw [if_neg hus]
    simp only [List.cons_append, if_pos]
    rw [parseFixed6 d.microsecond _ (by omega)]
    rfl

/-- Hex digits of `hexNibble` read back. -/
theorem hexVal_hexNibble : ∀ x < 16, hexVal (hexNibble x) = some x := by decide


/-- A closing quote ends the string body. -/
theorem parseStrBody_quoteStep (fuel : Nat) (tail : List Char) :
    parseStrBody (fuel + 1) ('"' :: tail) = some ([], tail) := rfl

/-- After a backslash the escape is decoded by `decodeEsc`. -/
theorem parseStrBody_escCons (fuel : Nat) (e d : Char) (tail tail2 : List Char)
    (hd : decodeEsc e tail = some (d, tail2)) :
    parseStrBody (fuel + 1) ('\\' :: e :: tail) =
      (parseStrBody fuel tail2).map (fun p => (d :: p.1, p.2)) := by
  show (decodeEsc e tail).bind (fun dr =>
      (parseStrBody fuel dr.2).map (fun p => (dr.1 :: p.1, p.2))) = _
  rw [hd]
  rfl

/-- Any character other than quote and backslash is taken verbatim. -/
theorem parseStrBody_plainStep (fuel : Nat) (c : Char) (tail : List Char)
    (hq : ¬ c = '"') (hb : ¬ c = '\\') :
    parseStrBody (fuel + 1) (c :: tail) =
      (parseStrBody fuel tail).map (fun p => (c :: p.1, p.2)) := by
  show (if c = '"' then some ([], tail)
    else if c = '\\' then
      match tail with
      | [] => none
      | e :: rest =>
        (decodeEsc e rest).bind (fun dr =>
          (parseStrBody fuel dr.2).map (fun p => (dr.1 :: p.1, p.2)))
    else (parseStrBody fuel tail).map (fun p => (c :: p.1, p.2))) = _
  rw [if_neg hq, if_neg hb]

/-- Four valid hex digits parse to their value. -/
theorem parseHex4_eq (h1 h2 h3 h4 : Char) (v1 v2 v3 v4 : Nat) (tail : List Char)
    (e1 : hexVal h1 = some v1) (e2 : hexVal h2 = some v2)
    (e3 : hexVal h3 = some v3) (e4 : hexVal h4 = some v4) :
    parseHex4 (h1 :: h2 :: h3 :: h4 :: tail) =
      some (((v1 * 16 + v2) * 16 + v3) * 16 + v4, tail) := by
  show (match hexVal h1, hexVal h2, hexVal h3, hexVal h4 with
    | some v1, some v2, some v3, some v4 =>
      some (((v1 * 16 + v2) * 16 + v3) * 16 + v4, tail)
    | _, _, _, _ => none) = _
  rw [e1, e2, e3, e4]

/-- A `\u` escape with a non-surrogate value decodes to that code point. -/
theorem decodeEsc_u (tail tail2 : List Char) (n : Nat)
    (hp : parseHex4 tail = some (n, tail2))
    (hrange : ¬(55296 ≤ n ∧ n < 57344)) :
    decodeEsc 'u' tail = some (Char.ofNat n, tail2) := by
  show (parseHex4 tail).bind (fun nr =>
    if 55296 ≤ nr.1 ∧ nr.1 < 57344 then none
    else some (Char.ofNat nr.1, nr.2)) = _
  rw [hp]
  show (if 55296 ≤ n ∧ n < 57344 then none
    else some (Char.ofNat n, tail2)) = _
  rw [if_neg hrange]

/-- `parseStrBody` undoes `jcBody`, consuming through the closing quote. -/
theorem parseStrBody_jcBody : ∀ (l : List Char) (fuel : Nat) (rest : List Char),
    (jcBody l ++ ('"' :: rest)).length ≤ fuel →
    parseStrBody fuel (jcBody l ++ ('"' :: rest)) = some (l, rest) := by
  intro l
  induction l with
  | nil =>
    intro fuel rest hf
    simp only [jcBody, List.foldr_nil, List.nil_append] at hf ⊢
    obtain ⟨f, rfl⟩ : ∃ f, fuel = f + 1 := ⟨fuel - 1, by simp at hf; omega⟩
    exact parseStrBody_quoteStep f rest
  | cons c l' ih =>
    intro fuel rest hf
    have hbody : jcBody (c :: l') = jcEscapeChar c ++ jcBody l' := rfl
    rw [hbody, List.append_assoc] at hf ⊢
    have hlen : (jcEscapeChar c).length + ((jcBody l' ++ '"' :: rest)).length ≤ fuel := by
      simp only [List.length_append, List.length_cons] at hf ⊢
      omega
    have hpos : 1 ≤ (jcEscapeChar c).length := by
      unfold jcEscapeChar
      repeat' split
      all_goals simp [pyHexEscape]
    obtain ⟨f, rfl⟩ : ∃ f, fuel = f + 1 := ⟨fuel - 1, by omega⟩
    unfold jcEscapeChar at hlen ⊢
    by_cases hq : c = '"'
    · rw [if_pos hq] at hlen ⊢
      simp only [List.cons_append, List.nil_append]
      rw [parseStrBody_escCons f '"' '"' _ _ rfl]
      rw [ih f rest (by simp only [List.length_append, List.length_cons, List.length_nil] at hlen ⊢; omega)]
      simp [hq]
    · rw [if_neg hq] at hlen ⊢
      by_cases hb : c = '\\'
      · rw [if_pos hb] at hlen ⊢
        simp only [List.cons_append, List.nil_append]
        rw [parseStrBody_escCons f '\\' '\\' _ _ rfl]
        rw [ih f rest (by simp only [List.length_append, List.length_cons, List.length_nil] at hlen ⊢; omega)]
        simp [hb]
      · rw [if_neg hb] at hlen ⊢
        by_cases h8 : c.toNat = 8
        · rw [if_pos h8] at hlen ⊢
          simp only [List.cons_append, List.nil_append]
          rw [parseStrBody_escCons f 'b' (Char.ofNat 8) _ _ rfl]
          rw [ih f rest (by simp only [List.length_append, List.length_cons, List.length_nil] at hlen ⊢; omega)]
          have hcd : Char.ofNat 8 = c := by rw [← h8, Char.ofNat_toNat]
          rw [hcd]; exact rfl
        · rw [if_neg h8] at hlen ⊢
          by_cases h9 : c.toNat = 9
          · rw [if_pos h9] at hlen ⊢
            simp only [List.cons_append, List.nil_append]
            rw [parseStrBody_escCons f 't' (Char.ofNat 9) _ _ rfl]
            rw [ih f rest (by simp only [List.length_append, List.length_cons, List.length_nil] at hlen ⊢; omega)]
            have hcd : Char.ofNat 9 = c := by rw [← h9, Char.ofNat_toNat]
            rw [hcd]; exact rfl
          · rw [if_neg h9] at hlen ⊢
            by_cases hA : c.toNat = 10
            · rw [if_pos hA] at hlen ⊢
              simp only [List.cons_append, List.nil_append]
              rw [parseStrBody_escCons f 'n' (Char.ofNat 10) _ _ rfl]
              rw [ih f rest (by simp only [List.length_append, List.length_cons, List.length_nil] at hlen ⊢; omega)]
              have hcd : Char.ofNat 10 = c := by rw [← hA, Char.ofNat_toNat]
              rw [hcd]; exact rfl
            · rw [if_neg hA] at hlen ⊢
              by_cases hC : c.toNat = 12
              · rw [if_pos hC] at hlen ⊢
                simp only [List.cons_append, List.nil_append]
                rw [parseStrBody_escCons f 'f' (Char.ofNat 12) _ _ rfl]
                rw [ih f rest (by simp only [List.length_append, List.length_cons, List.length_nil] at hlen ⊢; omega)]
                have hcd : Char.ofNat 12 = c := by rw [← hC, Char.ofNat_toNat]
                rw [hcd]; exact rfl
              · rw [if_neg hC] at hlen ⊢
                by_cases hD : c.toNat = 13
                · rw [if_pos hD] at hlen ⊢
                  simp only [List.cons_append, List.nil_append]
                  rw [parseStrBody_escCons f 'r' (Char.ofNat 13) _ _ rfl]
                  rw [ih f rest (by simp only [List.length_append, List.length_cons, List.length_nil] at hlen ⊢; omega)]
                  have hcd : Char.ofNat 13 = c := by rw [← hD, Char.ofNat_toNat]
                  rw [hcd]; exact rfl
                · rw [if_neg hD] at hlen ⊢
                  by_cases hctl : c.toNat < 32
                  · rw [if_pos hctl] at hlen ⊢
                    simp only [pyHexEscape, List.cons_append, List.nil_append]
                    rw [parseStrBody_escCons f 'u' (Char.ofNat c.toNat) _ _
                      (decodeEsc_u _ _ c.toNat
                        (by
                          rw [parseHex4_eq _ _ _ _ _ _ _ _ _
                            (hexVal_hexNibble (c.toNat / 4096 % 16) (by omega))
                            (hexVal_hexNibble (c.toNat / 256 % 16) (by omega))
                            (hexVal_hexNibble (c.toNat / 16 % 16) (by omega))
                            (hexVal_hexNibble (c.toNat % 16) (by omega))]
                          congr 2
                          omega)
                        (by omega))]
                    rw [ih f rest (by simp only [pyHexEscape, List.length_append, List.length_cons, List.length_nil] at hlen ⊢; omega)]
                    rw [Char.ofNat_toNat]
                    rfl
                  · rw [if_neg hctl] at hlen ⊢
                    simp only [List.cons_append, List.nil_append]
                    rw [parseStrBody_plainStep f c _ hq hb]
                    rw [ih f rest (by simp only [List.length_append, List.length_cons, List.length_nil] at hlen ⊢; omega)]
                    rfl

/-- `parseOptStr` reads back `jcOptStr`. -/
theorem parseOptStr_jcOptStr (o : Option String) (rest : List Char) :
    parseOptStr (jcOptStr o ++ rest) = some (o, rest) := by
  cases o with
  | none => rfl
  | some s =>
    have h : jcOptStr (some s) ++ rest =
        '"' :: (jcBody s.data ++ ('"' :: rest)) := by
      simp [jcOptStr, jcStr]
    rw [h]
    show (parseStrBody (jcBody s.data ++ ('"' :: rest)).length
        (jcBody s.data ++ ('"' :: rest))).map
      (fun p => (some (String.mk p.1), p.2)) = some (some s, rest)
    rw [parseStrBody_jcBody s.data _ rest (le_refl _)]
    rfl

/-- `intToChars` never produces the empty list. -/
theorem intToChars_ne_nil (i : Int) : intToChars i ≠ [] := by
  unfold intToChars
  split
  · simp
  · exact natToChars_ne_nil _

/-- The head of a printed integer is a minus sign or a digit, never `]`. -/
theorem intToChars_head_ne (i : Int) (c : Char) (cs : List Char)
    (hx : intToChars i = c :: cs) : ¬ c = ']' := by
  intro hc
  subst hc
  unfold intToChars at hx
  split at hx
  · exact absurd (List.head_eq_of_cons_eq hx.symm).symm (by decide)
  · have hmem : (']' : Char) ∈ natToChars i.toNat := by
      rw [hx]; exact List.mem_cons_self _ _
    have := natToChars_digits i.toNat _ hmem
    exact absurd this (by decide)

/-- A nonempty prefix with a non-digit head keeps the whole append non-digit
headed. -/
theorem noDigitHead_cons_append (a : Char) (A T : List Char)
    (ha : isDigitCh a = false) : noDigitHead ((a :: A) ++ T) := by
  intro c hc
  simp only [List.cons_append, List.head?_cons, Option.some.injEq] at hc
  rw [← hc]
  exact ha

/-- An integer element followed by a comma consumed from an array body. -/
theorem parseIntListAux_comma (fuel : Nat) (x : Int) (rest2 : List Char) :
    parseIntListAux (fuel + 1) (intToChars x ++ ',' :: rest2) =
      (parseIntListAux fuel rest2).map (fun q => (x :: q.1, q.2)) := by
  obtain ⟨c, cs, hx⟩ : ∃ c cs, intToChars x = c :: cs := by
    cases h : intToChars x with
    | nil => exact absurd h (intToChars_ne_nil x)
    | cons a as => exact ⟨a, as, rfl⟩
  rw [hx, List.cons_append]
  show (if c = ']' then some ([], cs ++ ',' :: rest2)
    else (parseInt (c :: (cs ++ ',' :: rest2))).bind (fun p =>
      match p.2 with
      | [] => none
      | c2 :: r2 =>
        if c2 = ',' then
          (parseIntListAux fuel r2).map (fun q => (p.1 :: q.1, q.2))
        else if c2 = ']' then some ([p.1], r2)
        else none)) = _
  rw [if_neg (intToChars_head_ne x c cs hx)]
  rw [show c :: (cs ++ ',' :: rest2) = intToChars x ++ ',' :: rest2 from by
    rw [hx, List.cons_append]]
  rw [parseInt_intToChars x (',' :: rest2)
    (by intro c' hc; simp only [List.head?_cons, Option.some.injEq] at hc;
        rw [← hc]; decide)]
  rfl

/-- The final integer element of an array body, closed by `]`. -/
theorem parseIntListAux_close (fuel : Nat) (x : Int) (rest2 : List Char) :
    parseIntListAux (fuel + 1) (intToChars x ++ ']' :: rest2) =
      some ([x], rest2) := by
  obtain ⟨c, cs, hx⟩ : ∃ c cs, intToChars x = c :: cs := by
    cases h : intToChars x with
    | nil => exact absurd h (intToChars_ne_nil x)
    | cons a as => exact ⟨a, as, rfl⟩
  rw [hx, List.cons_append]
  show (if c = ']' then some ([], cs ++ ']' :: rest2)
    else (parseInt (c :: (cs ++ ']' :: rest2))).bind (fun p =>
      match p.2 with
      | [] => none
      | c2 :: r2 =>
        if c2 = ',' then
          (parseIntListAux fuel r2).map (fun q => (p.1 :: q.1, q.2))
        else if c2 = ']' then some ([p.1], r2)
        else none)) = _
  rw [if_neg (intToChars_head_ne x c cs hx)]
  rw [show c :: (cs ++ ']' :: rest2) = intToChars x ++ ']' :: rest2 from by
    rw [hx, List.cons_append]]
  rw [parseInt_intToChars x (']' :: rest2)
    (by intro c' hc; simp only [List.head?_cons, Option.some.injEq] at hc;
        rw [← hc]; decide)]
  rfl

/-- The element run of a serialized integer array reads back. -/
theorem parseIntListAux_jc : ∀ (l : List Int) (fuel : Nat) (rest : List Char),
    (joinSep [','] (l.map intToChars)).length + 1 + rest.length ≤ fuel →
    parseIntListAux fuel (joinSep [','] (l.map intToChars) ++ ']' :: rest) =
      some (l, rest) := by
  intro l
  induction l with
  | nil =>
    intro fuel rest hf
    simp only [List.map_nil, joinSep, List.length_nil, List.nil_append] at hf ⊢
    obtain ⟨f, rfl⟩ : ∃ f, fuel = f + 1 := ⟨fuel - 1, by omega⟩
    rfl
  | cons x l' ih =>
    intro fuel rest hf
    have hx1 : 1 ≤ (intToChars x).length := by
      cases h : intToChars x with
      | nil => exact absurd h (intToChars_ne_nil x)
      | cons a as => simp
    cases l' with
    | nil =>
      simp only [List.map_cons, List.map_nil, joinSep] at hf ⊢
      obtain ⟨f, rfl⟩ : ∃ f, fuel = f + 1 := ⟨fuel - 1, by omega⟩
      exact parseIntListAux_close f x rest
    | cons y l'' =>
      simp only [List.map_cons, joinSep] at hf ⊢
      rw [List.append_assoc, List.append_assoc]
      have hshape : ([','] : List Char) ++
          (joinSep [','] (intToChars y :: l''.map intToChars) ++ ']' :: rest) =
          ',' :: (joinSep [','] (intToChars y :: l''.map intToChars) ++
            ']' :: rest) := rfl
      rw [hshape]
      simp only [List.length_append, List.length_cons, List.length_nil] at hf
      obtain ⟨f, rfl⟩ : ∃ f, fuel = f + 1 := ⟨fuel - 1, by omega⟩
      rw [parseIntListAux_comma f x _]
      have hrec := ih f rest (by
        simp only [List.map_cons, List.length_append, List.length_cons,
          List.length_nil]
        omega)
      simp only [List.map_cons] at hrec
      rw [hrec]
      rfl

/-- A serialized integer array reads back. -/
theorem parseIntList_jc (l : List Int) (rest : List Char) :
    parseIntList (jcIntList l ++ rest) = some (l, rest) := by
  have h : jcIntList l ++ rest =
      '[' :: (joinSep [','] (l.map intToChars) ++ ']' :: rest) := by
    simp [jcIntList]
  rw [h]
  show parseIntListAux
      ((joinSep [','] (l.map intToChars) ++ ']' :: rest).length + 1)
      (joinSep [','] (l.map intToChars) ++ ']' :: rest) = _
  exact parseIntListAux_jc l _ rest (by
    simp only [List.length_append, List.length_cons]
    omega)

/-- A serialized `CollectsState` object reads back. -/
theorem parseCollects_jc (cs : CollectsState) (rest : List Char) :
    parseCollects (collectsJson cs ++ rest) = some (cs, rest) := by
  have hshape : collectsJson cs ++ rest =
      ([lcurly] ++ jcStr "collection_id" ++ [':']) ++
        (intToChars cs.collection_id ++
          (([','] ++ jcStr "page_info" ++ [':']) ++
            (jcOptStr cs.page_info ++
              (([','] ++ jcStr "product_ids" ++ [':']) ++
                (jcIntList cs.product_ids ++ (rcurly :: rest)))))) := by
    simp [collectsJson]
  rw [hshape]
  unfold parseCollects
  rw [expectChars_app]
  simp only [Option.some_bind]
  rw [parseInt_intToChars cs.collection_id
    (([','] ++ jcStr "page_info" ++ [':']) ++
      (jcOptStr cs.page_info ++
        (([','] ++ jcStr "product_ids" ++ [':']) ++
          (jcIntList cs.product_ids ++ (rcurly :: rest)))))
    (noDigitHead_cons_append ',' _ _ (by decide))]
  simp only [Option.some_bind]
  rw [expectChars_app]
  simp only [Option.some_bind]
  rw [parseOptStr_jcOptStr]
  simp only [Option.some_bind]
  rw [expectChars_app]
  simp only [Option.some_bind]
  rw [parseIntList_jc]
  simp only [Option.some_bind]
  rw [expectChars_cons_self]
  simp only [Option.map_some']

/-- A serialized `"<int>": <CollectsState>` entry reads back. -/
theorem parseCollectsEntry_jc (k : Int) (cs : CollectsState) (rest : List Char) :
    parseCollectsEntry
      (('"' :: intToChars k ++ ['"', ':'] ++ collectsJson cs) ++ rest) =
      some ((k, cs), rest) := by
  have hshape : ('"' :: intToChars k ++ ['"', ':'] ++ collectsJson cs) ++ rest =
      '"' :: (intToChars k ++
        ((['"', ':'] : List Char) ++ (collectsJson cs ++ rest))) := by
    simp
  rw [hshape]
  unfold parseCollectsEntry
  rw [expectChars_cons_self]
  simp only [Option.some_bind]
  rw [parseInt_intToChars k
    ((['"', ':'] : List Char) ++ (collectsJson cs ++ rest))
    (noDigitHead_cons_append '"' _ _ (by decide))]
  simp only [Option.some_bind]
  rw [expectChars_app]
  simp only [Option.some_bind]
  rw [parseCollects_jc]
  simp only [Option.map_some']

/-- The entry run of the serialized `collects_state` object reads back. -/
theorem parseCollectsMapAux_jc :
    ∀ (m : List (Int × CollectsState)) (fuel : Nat) (rest : List Char),
    (joinSep [','] (m.map (fun p =>
      '"' :: intToChars p.1 ++ ['"', ':'] ++ collectsJson p.2))).length + 1 +
      rest.length ≤ fuel →
    m ≠ [] →
    parseCollectsMapAux fuel
      (joinSep [','] (m.map (fun p =>
        '"' :: intToChars p.1 ++ ['"', ':'] ++ collectsJson p.2)) ++
        rcurly :: rest) = some (m, rest) := by
  intro m
  induction m with
  | nil => intro fuel rest _ hne; exact absurd rfl hne
  | cons x m' ih =>
    intro fuel rest hf _
    cases m' with
    | nil =>
      simp only [List.map_cons, List.map_nil, joinSep, List.length_cons] at hf ⊢
      obtain ⟨f, rfl⟩ : ∃ f, fuel = f + 1 := ⟨fuel - 1, by omega⟩
      show (parseCollectsEntry
          (('"' :: intToChars x.1 ++ ['"', ':'] ++ collectsJson x.2) ++
            rcurly :: rest)).bind (fun er =>
        match er.2 with
        | ',' :: rest2 =>
          (parseCollectsMapAux f rest2).map (fun q => (er.1 :: q.1, q.2))
        | c :: rest2 => if c = rcurly then some ([er.1], rest2) else none
        | [] => none) = _
      rw [parseCollectsEntry_jc x.1 x.2 (rcurly :: rest)]
      rfl
    | cons y m'' =>
      simp only [List.map_cons, joinSep, List.length_cons,
        List.length_append] at hf ⊢
      rw [List.append_assoc, List.append_assoc]
      have hshape : ([','] : List Char) ++
          (joinSep [','] (('"' :: intToChars y.1 ++ ['"', ':'] ++
              collectsJson y.2) :: m''.map (fun p =>
            '"' :: intToChars p.1 ++ ['"', ':'] ++ collectsJson p.2)) ++
            rcurly :: rest) =
          ',' :: (joinSep [','] (('"' :: intToChars y.1 ++ ['"', ':'] ++
              collectsJson y.2) :: m''.map (fun p =>
            '"' :: intToChars p.1 ++ ['"', ':'] ++ collectsJson p.2)) ++
            rcurly :: rest) := rfl
      rw [hshape]
      obtain ⟨f, rfl⟩ : ∃ f, fuel = f + 1 := ⟨fuel - 1, by omega⟩
      show (parseCollectsEntry
          (('"' :: intToChars x.1 ++ ['"', ':'] ++ collectsJson x.2) ++
            ',' :: (joinSep [','] (('"' :: intToChars y.1 ++ ['"', ':'] ++
                collectsJson y.2) :: m''.map (fun p =>
              '"' :: intToChars p.1 ++ ['"', ':'] ++ collectsJson p.2)) ++
              rcurly :: rest))).bind (fun er =>
        match er.2 with
        | ',' :: rest2 =>
          (parseCollectsMapAux f rest2).map (fun q => (er.1 :: q.1, q.2))
        | c :: rest2 => if c = rcurly then some ([er.1], rest2) else none
        | [] => none) = _
      rw [parseCollectsEntry_jc x.1 x.2]
      simp only [Option.some_bind]
      have hrec := ih f rest (by
        simp only [List.map_cons, joinSep, List.length_cons, List.length_append]
        omega) (by simp)
      simp only [List.map_cons, joinSep] at hrec
      show (parseCollectsMapAux f
          (joinSep [','] (('"' :: intToChars y.1 ++ ['"', ':'] ++
              collectsJson y.2) :: m''.map (fun p =>
            '"' :: intToChars p.1 ++ ['"', ':'] ++ collectsJson p.2)) ++
            rcurly :: rest)).map (fun q => ((x.1, x.2) :: q.1, q.2)) = _
      rw [hrec]
      rfl

/-- The head entry of a joined nonempty serialization list. -/
theorem joinSep_cons_head {α : Type} (sep : List Char)
    (f : α → List Char) (x : α) (m' : List α) (c : Char) (t : List Char)
    (hx : f x = c :: t) :
    ∃ u, joinSep sep ((x :: m').map f) = c :: u := by
  cases m' with
  | nil => exact ⟨t, by simp [joinSep, List.map_cons, hx]⟩
  | cons y m'' =>
    exact ⟨t ++ sep ++ joinSep sep ((y :: m'').map f),
      by simp [joinSep, List.map_cons, hx]⟩

/-- The serialized `collects_state` dict reads back. -/
theorem parseCollectsMap_jc (m : List (Int × CollectsState))
    (rest : List Char) :
    parseCollectsMap (collectsMapJson m ++ rest) = some (m, rest) := by
  cases m with
  | nil => rfl
  | cons x m' =>
    obtain ⟨u, hu⟩ := joinSep_cons_head [',']
      (fun p => '"' :: intToChars p.1 ++ ['"', ':'] ++ collectsJson p.2)
      x m' '"' (intToChars x.1 ++ (['"', ':'] ++ collectsJson x.2)) (by simp)
    have hshape : collectsMapJson (x :: m') ++ rest =
        lcurly :: '"' :: (u ++ rcurly :: rest) := by
      unfold collectsMapJson
      rw [hu]
      simp
    rw [hshape]
    show parseCollectsMapAux ((u ++ rcurly :: rest).length + 1)
      ('"' :: (u ++ rcurly :: rest)) = some (x :: m', rest)
    rw [show ('"' : Char) :: (u ++ rcurly :: rest) =
      ('"' :: u) ++ rcurly :: rest from rfl, ← hu]
    exact parseCollectsMapAux_jc (x :: m') _ rest
      (by rw [hu]; simp only [List.length_append, List.length_cons]; omega)
      (by simp)

/-- The full serialized checkpoint reads back. -/
theorem parseCheckpointChars_jc (c : Checkpoint) (rest : List Char)
    (hv : c.Valid) :
    parseCheckpointChars (checkpointJson c ++ rest) = some (c, rest) := by
  have hshape : checkpointJson c ++ rest =
      ([lcurly] ++ jcStr "scope_hash" ++ [':', '"']) ++
        (jcBody c.scope_hash.data ++ ('"' ::
          (([','] ++ jcStr "page_info" ++ [':']) ++
            (jcOptStr c.page_info ++
              (([','] ++ jcStr "collects_state" ++ [':']) ++
                (collectsMapJson c.collects_state ++
                  (([','] ++ jcStr "seen_ids" ++ [':']) ++
                    (jcIntList c.seen_ids ++
                      (([','] ++ jcStr "processed_count" ++ [':']) ++
                        (intToChars c.processed_count ++
                          (([','] ++ jcStr "timestamp" ++ [':', '"']) ++
                            (isoChars c.timestamp ++
                              ('"' :: rcurly :: rest))))))))))))) := by
    simp [checkpointJson, jcStr]
  rw [hshape]
  unfold parseCheckpointChars
  rw [expectChars_app]
  simp only [Option.some_bind]
  rw [parseStrBody_jcBody c.scope_hash.data _ _ (le_refl _)]
  simp only [Option.some_bind]
  rw [expectChars_app]
  simp only [Option.some_bind]
  rw [parseOptStr_jcOptStr]
  simp only [Option.some_bind]
  rw [expectChars_app]
  simp only [Option.some_bind]
  rw [parseCollectsMap_jc]
  simp only [Option.some_bind]
  rw [expectChars_app]
  simp only [Option.some_bind]
  rw [parseIntList_jc]
  simp only [Option.some_bind]
  rw [expectChars_app]
  simp only [Option.some_bind]
  rw [parseInt_intToChars c.processed_count
    (([','] ++ jcStr "timestamp" ++ [':', '"']) ++
      (isoChars c.timestamp ++ ('"' :: rcurly :: rest)))
    (noDigitHead_cons_append ',' _ _ (by decide))]
  simp only [Option.some_bind]
  rw [expectChars_app]
  simp only [Option.some_bind]
  rw [parseIso_isoChars c.timestamp _ hv
    (by intro ch hc; simp only [List.head?_cons, Option.some.injEq] at hc;
        rw [← hc]; decide)]
  simp only [Option.some_bind]
  rw [show expectChars ['"', rcurly] ('"' :: rcurly :: rest) = some rest
    from rfl]
  simp only [Option.map_some']

/-- The code point of a `Char` is below 0x110000 and not a surrogate. -/
theorem char_toNat_valid (ch : Char) :
    ch.toNat < 1114112 ∧ ¬(55296 ≤ ch.toNat ∧ ch.toNat < 57344) := by
  have he : ch.toNat = ch.val.toNat := rfl
  cases ch.valid with
  | inl h => exact ⟨by omega, by omega⟩
  | inr h => exact ⟨by omega, by omega⟩

/-- One decoding step on a nonempty byte list. -/
theorem utf8DecodeChar_cons (b : Nat) (bs : List Nat) :
    utf8DecodeChar (b :: bs) =
      (if b < 128 then some (Char.ofNat b, bs)
       else if b < 192 then none
       else if b < 224 then utf8Decode2 b bs
       else if b < 240 then utf8Decode3 b bs
       else if b < 248 then utf8Decode4 b bs
       else none) := rfl

/-- The UTF-8 encoding of one character, with its `let` unfolded. -/
theorem utf8EncodeChar_eq (ch : Char) : utf8EncodeChar ch =
    (if ch.toNat < 128 then [ch.toNat]
     else if ch.toNat < 2048 then [192 + ch.toNat / 64, 128 + ch.toNat % 64]
     else if ch.toNat < 65536 then
       [224 + ch.toNat / 4096, 128 + ch.toNat / 64 % 64, 128 + ch.toNat % 64]
     else [240 + ch.toNat / 262144, 128 + ch.toNat / 4096 % 64,
       128 + ch.toNat / 64 % 64, 128 + ch.toNat % 64]) := rfl

/-- Decoding undoes the UTF-8 encoding of one character. -/
theorem utf8EncodeChar_decode (ch : Char) (bs : List Nat) :
    utf8DecodeChar (utf8EncodeChar ch ++ bs) = some (ch, bs) := by
  obtain ⟨hlt, hsur⟩ := char_toNat_valid ch
  have henc := utf8EncodeChar_eq ch
  by_cases h1 : ch.toNat < 128
  · rw [henc, if_pos h1]
    simp only [List.cons_append, List.nil_append]
    rw [utf8DecodeChar_cons, if_pos h1, Char.ofNat_toNat]
  · by_cases h2 : ch.toNat < 2048
    · rw [henc, if_neg h1, if_pos h2]
      simp only [List.cons_append, List.nil_append]
      rw [utf8DecodeChar_cons, if_neg (by omega), if_neg (by omega),
        if_pos (by omega)]
      show (if 128 ≤ 128 + ch.toNat % 64 ∧ 128 + ch.toNat % 64 < 192 then
          if 128 ≤ (192 + ch.toNat / 64 - 192) * 64 + (128 + ch.toNat % 64 - 128)
          then some (Char.ofNat ((192 + ch.toNat / 64 - 192) * 64 +
            (128 + ch.toNat % 64 - 128)), bs)
          else none
        else none) = _
      rw [if_pos (by omega)]
      rw [show (192 + ch.toNat / 64 - 192) * 64 + (128 + ch.toNat % 64 - 128) =
        ch.toNat from by omega]
      rw [if_pos (by omega), Char.ofNat_toNat]
    · by_cases h3 : ch.toNat < 65536
      · rw [henc, if_neg h1, if_neg h2, if_pos h3]
        simp only [List.cons_append, List.nil_append]
        rw [utf8DecodeChar_cons, if_neg (by omega), if_neg (by omega),
          if_neg (by omega), if_pos (by omega)]
        show (if (128 ≤ 128 + ch.toNat / 64 % 64 ∧ 128 + ch.toNat / 64 % 64 < 192) ∧
            (128 ≤ 128 + ch.toNat % 64 ∧ 128 + ch.toNat % 64 < 192) then
          if 2048 ≤ (224 + ch.toNat / 4096 - 224) * 4096 +
              (128 + ch.toNat / 64 % 64 - 128) * 64 + (128 + ch.toNat % 64 - 128) ∧
            ¬(55296 ≤ (224 + ch.toNat / 4096 - 224) * 4096 +
                (128 + ch.toNat / 64 % 64 - 128) * 64 + (128 + ch.toNat % 64 - 128) ∧
              (224 + ch.toNat / 4096 - 224) * 4096 +
                (128 + ch.toNat / 64 % 64 - 128) * 64 + (128 + ch.toNat % 64 - 128) <
                57344) then
            some (Char.ofNat ((224 + ch.toNat / 4096 - 224) * 4096 +
              (128 + ch.toNat / 64 % 64 - 128) * 64 + (128 + ch.toNat % 64 - 128)),
              bs)
          else none
        else none) = _
        rw [if_pos (by constructor <;> constructor <;> omega)]
        rw [show (224 + ch.toNat / 4096 - 224) * 4096 +
            (128 + ch.toNat / 64 % 64 - 128) * 64 + (128 + ch.toNat % 64 - 128) =
          ch.toNat from by omega]
        rw [if_pos (by omega), Char.ofNat_toNat]
      · rw [henc, if_neg h1, if_neg h2, if_neg h3]
        simp only [List.cons_append, List.nil_append]
        rw [utf8DecodeChar_cons, if_neg (by omega), if_neg (by omega),
          if_neg (by omega), if_neg (by omega), if_pos (by omega)]
        show (if (128 ≤ 128 + ch.toNat / 4096 % 64 ∧
              128 + ch.toNat / 4096 % 64 < 192) ∧
            (128 ≤ 128 + ch.toNat / 64 % 64 ∧ 128 + ch.toNat / 64 % 64 < 192) ∧
            (128 ≤ 128 + ch.toNat % 64 ∧ 128 + ch.toNat % 64 < 192) then
          if 65536 ≤ (240 + ch.toNat / 262144 - 240) * 262144 +
                (128 + ch.toNat / 4096 % 64 - 128) * 4096 +
                (128 + ch.toNat / 64 % 64 - 128) * 64 +
                (128 + ch.toNat % 64 - 128) ∧
              (240 + ch.toNat / 262144 - 240) * 262144 +
                (128 + ch.toNat / 4096 % 64 - 128) * 4096 +
                (128 + ch.toNat / 64 % 64 - 128) * 64 +
                (128 + ch.toNat % 64 - 128) < 1114112 then
            some (Char.ofNat ((240 + ch.toNat / 262144 - 240) * 262144 +
              (128 + ch.toNat / 4096 % 64 - 128) * 4096 +
              (128 + ch.toNat / 64 % 64 - 128) * 64 +
              (128 + ch.toNat % 64 - 128)), bs)
          else none
        else none) = _
        rw [if_pos (by refine ⟨⟨?_, ?_⟩, ⟨?_, ?_⟩, ?_, ?_⟩ <;> omega)]
        rw [show (240 + ch.toNat / 262144 - 240) * 262144 +
            (128 + ch.toNat / 4096 % 64 - 128) * 4096 +
            (128 + ch.toNat / 64 % 64 - 128) * 64 +
            (128 + ch.toNat % 64 - 128) = ch.toNat from by omega]
        rw [if_pos (by omega), Char.ofNat_toNat]

/-- The UTF-8 encoding of a character is nonempty. -/
theorem utf8EncodeChar_ne_nil (ch : Char) : utf8EncodeChar ch ≠ [] := by
  rw [utf8EncodeChar_eq]
  split
  · simp
  · split
    · simp
    · split
      · simp
      · simp

/-- Each UTF-8 byte fits in a byte. -/
theorem utf8EncodeChar_lt256 (ch : Char) : ∀ b ∈ utf8EncodeChar ch, b < 256 := by
  obtain ⟨hlt, _⟩ := char_toNat_valid ch
  intro b hb
  rw [utf8EncodeChar_eq] at hb
  split at hb
  · simp only [List.mem_singleton] at hb; omega
  · split at hb
    · simp only [List.mem_cons, List.not_mem_nil, or_false] at hb
      rcases hb with h | h <;> omega
    · split at hb
      · simp only [List.mem_cons, List.not_mem_nil, or_false] at hb
        rcases hb with h | h | h <;> omega
      · simp only [List.mem_cons, List.not_mem_nil, or_false] at hb
        rcases hb with h | h | h | h <;> omega

/-- Every byte of a UTF-8 encoded text fits in a byte. -/
theorem utf8Encode_lt256 (l : List Char) : ∀ b ∈ utf8Encode l, b < 256 := by
  induction l with
  | nil => intro b hb; simp [utf8Encode] at hb
  | cons c l' ih =>
    intro b hb
    have hstep : utf8Encode (c :: l') = utf8EncodeChar c ++ utf8Encode l' := rfl
    rw [hstep, List.mem_append] at hb
    rcases hb with h | h
    · exact utf8EncodeChar_lt256 c b h
    · exact ih b h

/-- UTF-8 decoding undoes encoding. -/
theorem utf8DecodeAux_encode : ∀ (l : List Char) (fuel : Nat),
    (utf8Encode l).length ≤ fuel →
    utf8DecodeAux fuel (utf8Encode l) = some l := by
  intro l
  induction l with
  | nil =>
    intro fuel _
    cases fuel <;> rfl
  | cons ch l' ih =>
    intro fuel h
    have hstep : utf8Encode (ch :: l') = utf8EncodeChar ch ++ utf8Encode l' := rfl
    rw [hstep] at h ⊢
    obtain ⟨b, bs0, hb⟩ : ∃ b bs0, utf8EncodeChar ch = b :: bs0 := by
      cases he : utf8EncodeChar ch with
      | nil => exact absurd he (utf8EncodeChar_ne_nil ch)
      | cons x xs => exact ⟨x, xs, rfl⟩
    have hlen1 : 1 ≤ (utf8EncodeChar ch).length := by rw [hb]; simp
    simp only [List.length_append] at h
    obtain ⟨f, rfl⟩ : ∃ f, fuel = f + 1 := ⟨fuel - 1, by omega⟩
    rw [hb, List.cons_append]
    show (match utf8DecodeChar (b :: (bs0 ++ utf8Encode l')) with
      | some (c, rest) => (utf8DecodeAux f rest).map (fun cs => c :: cs)
      | none => none) = some (ch :: l')
    rw [show b :: (bs0 ++ utf8Encode l') = utf8EncodeChar ch ++ utf8Encode l'
      from by rw [hb, List.cons_append]]
    rw [utf8EncodeChar_decode ch (utf8Encode l')]
    show (utf8DecodeAux f (utf8Encode l')).map (fun cs => ch :: cs) =
      some (ch :: l')
    rw [ih f (by omega)]
    rfl

/-- `bytes.decode` undoes `str.encode`. -/
theorem utf8Decode_encode (l : List Char) :
    utf8Decode (utf8Encode l) = some l :=
  utf8DecodeAux_encode l _ (le_refl _)

/-- The base64 alphabet decodes back to the sextet value. -/
theorem charSextet_sextetChar : ∀ n < 64, charSextet (sextetChar n) = some n := by
  decide

/-- No alphabet character is the padding character. -/
theorem sextetChar_ne_eq : ∀ n < 64, sextetChar n ≠ '=' := by
  decide

/-- One decoding step on a quartet. -/
theorem b64decode_cons (c0 c1 c2 c3 : Char) (rest : List Char) :
    b64decode (c0 :: c1 :: c2 :: c3 :: rest) =
      (if rest = [] ∧ c2 = '=' ∧ c3 = '=' then b64pad2 c0 c1
       else if rest = [] ∧ c3 = '=' then b64pad1 c0 c1 c2
       else (b64quad c0 c1 c2 c3).bind (fun triple =>
         (b64decode rest).map (fun bs => triple ++ bs))) := rfl

/-- A two-padded quartet of alphabet characters decodes by value. -/
theorem b64pad2_eval (s0 s1 : Nat) (h0 : s0 < 64) (h1 : s1 < 64) :
    b64pad2 (sextetChar s0) (sextetChar s1) =
      (if s1 % 16 = 0 then some [s0 * 4 + s1 / 16] else none) := by
  show (match charSextet (sextetChar s0), charSextet (sextetChar s1) with
    | some s0, some s1 => if s1 % 16 = 0 then some [s0 * 4 + s1 / 16] else none
    | _, _ => none) = _
  rw [charSextet_sextetChar s0 h0, charSextet_sextetChar s1 h1]

/-- A one-padded quartet of alphabet characters decodes by value. -/
theorem b64pad1_eval (s0 s1 s2 : Nat) (h0 : s0 < 64) (h1 : s1 < 64)
    (h2 : s2 < 64) :
    b64pad1 (sextetChar s0) (sextetChar s1) (sextetChar s2) =
      (if s2 % 4 = 0 then some [s0 * 4 + s1 / 16, s1 % 16 * 16 + s2 / 4]
       else none) := by
  show (match charSextet (sextetChar s0), charSextet (sextetChar s1),
      charSextet (sextetChar s2) with
    | some s0, some s1, some s2 =>
      if s2 % 4 = 0 then some [s0 * 4 + s1 / 16, s1 % 16 * 16 + s2 / 4]
      else none
    | _, _, _ => none) = _
  rw [charSextet_sextetChar s0 h0, charSextet_sextetChar s1 h1,
    charSextet_sextetChar s2 h2]

/-- An unpadded quartet of alphabet characters decodes by value. -/
theorem b64quad_eval (s0 s1 s2 s3 : Nat) (h0 : s0 < 64) (h1 : s1 < 64)
    (h2 : s2 < 64) (h3 : s3 < 64) :
    b64quad (sextetChar s0) (sextetChar s1) (sextetChar s2) (sextetChar s3) =
      some [s0 * 4 + s1 / 16, s1 % 16 * 16 + s2 / 4, s2 % 4 * 64 + s3] := by
  show (match charSextet (sextetChar s0), charSextet (sextetChar s1),
      charSextet (sextetChar s2), charSextet (sextetChar s3) with
    | some s0, some s1, some s2, some s3 =>
      some [s0 * 4 + s1 / 16, s1 % 16 * 16 + s2 / 4, s2 % 4 * 64 + s3]
    | _, _, _, _ => none) = _
  rw [charSextet_sextetChar s0 h0, charSextet_sextetChar s1 h1,
    charSextet_sextetChar s2 h2, charSextet_sextetChar s3 h3]

/-- Base64 decoding undoes encoding over byte sequences (fuel-indexed). -/
theorem b64decode_encode_aux : ∀ (k : Nat) (bs : List Nat), bs.length ≤ k →
    (∀ b ∈ bs, b < 256) → b64decode (b64encode bs) = some bs := by
  intro k
  induction k with
  | zero =>
    intro bs h _
    cases bs with
    | nil => rfl
    | cons b t => simp at h
  | succ k ih =>
    intro bs h hm
    cases bs with
    | nil => rfl
    | cons b0 t0 =>
      cases t0 with
      | nil =>
        have hb0 : b0 < 256 := hm b0 (by simp)
        have henc : b64encode [b0] =
            [sextetChar (b0 / 4), sextetChar (b0 % 4 * 16), '=', '='] := rfl
        rw [henc, b64decode_cons, if_pos ⟨rfl, rfl, rfl⟩,
          b64pad2_eval _ _ (by omega) (by omega),
          if_pos (by omega : b0 % 4 * 16 % 16 = 0),
          show b0 / 4 * 4 + b0 % 4 * 16 / 16 = b0 from by omega]
      | cons b1 t1 =>
        cases t1 with
        | nil =>
          have hb0 : b0 < 256 := hm b0 (by simp)
          have hb1 : b1 < 256 := hm b1 (by simp)
          have henc : b64encode [b0, b1] =
              [sextetChar (b0 / 4), sextetChar (b0 % 4 * 16 + b1 / 16),
               sextetChar (b1 % 16 * 4), '='] := rfl
          rw [henc, b64decode_cons,
            if_neg (fun hco => sextetChar_ne_eq (b1 % 16 * 4) (by omega)
              hco.2.1),
            if_pos ⟨rfl, rfl⟩,
            b64pad1_eval _ _ _ (by omega) (by omega) (by omega),
            if_pos (by omega : b1 % 16 * 4 % 4 = 0),
            show b0 / 4 * 4 + (b0 % 4 * 16 + b1 / 16) / 16 = b0 from by omega,
            show (b0 % 4 * 16 + b1 / 16) % 16 * 16 + b1 % 16 * 4 / 4 = b1
              from by omega]
        | cons b2 rest =>
          have hb0 : b0 < 256 := hm b0 (by simp)
          have hb1 : b1 < 256 := hm b1 (by simp)
          have hb2 : b2 < 256 := hm b2 (by simp)
          have henc : b64encode (b0 :: b1 :: b2 :: rest) =
              sextetChar (b0 / 4) :: sextetChar (b0 % 4 * 16 + b1 / 16) ::
                sextetChar (b1 % 16 * 4 + b2 / 64) :: sextetChar (b2 % 64) ::
                b64encode rest := rfl
          rw [henc, b64decode_cons,
            if_neg (fun hco => sextetChar_ne_eq (b1 % 16 * 4 + b2 / 64)
              (by omega) hco.2.1),
            if_neg (fun hco => sextetChar_ne_eq (b2 % 64) (by omega) hco.2),
            b64quad_eval _ _ _ _ (by omega) (by omega) (by omega) (by omega)]
          rw [ih rest (by simp at h ⊢; omega)
            (fun b hb => hm b (by simp [hb]))]
          simp only [Option.some_bind, Option.map_some']
          rw [show b0 / 4 * 4 + (b0 % 4 * 16 + b1 / 16) / 16 = b0 from by omega,
            show (b0 % 4 * 16 + b1 / 16) % 16 * 16 +
              (b1 % 16 * 4 + b2 / 64) / 4 = b1 from by omega,
            show (b1 % 16 * 4 + b2 / 64) % 4 * 64 + b2 % 64 = b2 from by omega]
          rfl

/-- Base64 decoding undoes encoding over byte sequences. -/
theorem b64decode_encode (bs : List Nat) (hm : ∀ b ∈ bs, b < 256) :
    b64decode (b64encode bs) = some bs :=
  b64decode_encode_aux bs.length bs (le_refl _) hm

/-- `String.mk` holds exactly its character list. -/
theorem string_mk_data (l : List Char) : (String.mk l).data = l := rfl

/-- C2: for every job whose checkpoint is present (and representable as a
Python `datetime`-carrying checkpoint), decoding the encoded resume token
returns a checkpoint equal to the original:
`Job.decode_resume_token (job.get_resume_token()) = job.checkpoint`. -/
theorem resume_token_roundtrip (j : Job) (c : Checkpoint)
    (hc : j.checkpoint = some c) (hv : c.Valid) :
    Job.get_resume_token j = some (encodeCheckpointToken c) ∧
    Job.decode_resume_token (encodeCheckpointToken c) = some c := by
  constructor
  · unfold Job.get_resume_token
    rw [hc]
    rfl
  · unfold Job.decode_resume_token encodeCheckpointToken
    rw [string_mk_data]
    rw [b64decode_encode _ (utf8Encode_lt256 _)]
    simp only [Option.some_bind]
    rw [utf8Decode_encode]
    simp only [Option.some_bind]
    rw [show checkpointJson c = checkpointJson c ++ ([] : List Char)
      from (List.append_nil _).symm]
    rw [parseCheckpointChars_jc c [] hv]
    simp only [Option.some_bind]
    exact if_pos trivial

/-- A checkpoint with empty seen ids and no per-collection state. -/
def wCkpt1 : Checkpoint :=
  ⟨"abc123", none, [], [], 0, ⟨2024, 1, 2, 3, 4, 5, 0⟩⟩

/-- A checkpoint with populated per-collection state, seen ids and a
fractional-second timestamp. -/
def wCkpt2 : Checkpoint :=
  ⟨"deadbeef", some "pg token", [(5, ⟨5, some "x", [1, 2]⟩), (9, ⟨9, none, []⟩)],
   [10, 20, 30], 7, ⟨2023, 12, 31, 23, 59, 59, 123456⟩⟩

/-- A concrete job configuration for the round-trip witnesses. -/
def wCfg : JobConfig :=
  ⟨"s.myshopify.com", "tok", "custom", "links", ProductStatus.active, none,
   50, 5, 10000, true, false, none, "2024-01", 5, false, ProductAction.draft,
   none⟩

/-- A job carrying the empty-seen-ids checkpoint. -/
def wJob1 : Job :=
  ⟨"job-1", wCfg, JobStatus.running, zeroStats, [], some wCkpt1, none⟩

/-- A job carrying the populated checkpoint. -/
def wJob2 : Job :=
  ⟨"job-2", wCfg, JobStatus.running, zeroStats, [], some wCkpt2, none⟩

/-- Witness: the round-trip holds for a concrete empty-seen-ids checkpoint and
for a concrete populated checkpoint. -/
theorem resume_token_roundtrip_witness :
    (wJob1.checkpoint = some wCkpt1 ∧ wCkpt1.Valid ∧
      (Job.get_resume_token wJob1 = some (encodeCheckpointToken wCkpt1) ∧
       Job.decode_resume_token (encodeCheckpointToken wCkpt1) = some wCkpt1)) ∧
    (wJob2.checkpoint = some wCkpt2 ∧ wCkpt2.Valid ∧
      (Job.get_resume_token wJob2 = some (encodeCheckpointToken wCkpt2) ∧
       Job.decode_resume_token (encodeCheckpointToken wCkpt2) = some wCkpt2)) :=
  ⟨⟨rfl, by decide, resume_token_roundtrip wJob1 wCkpt1 rfl (by decide)⟩,
   ⟨rfl, by decide, resume_token_roundtrip wJob2 wCkpt2 rfl (by decide)⟩⟩

/-- One scanning step of `findallAux` on a nonempty input. -/
theorem findallAux_cons (f : Nat) (c : Char) (cs : List Char) :
    findallAux (f + 1) (c :: cs) =
      (match schemeLenAt (c :: cs) with
       | some k =>
         if k < (urlRun (c :: cs)).length then
           urlRun (c :: cs) ::
             findallAux f ((c :: cs).drop (urlRun (c :: cs)).length)
         else findallAux f cs
       | none => findallAux f cs) := rfl

/-- Deduplication only keeps elements of the input. -/
theorem dedupAux_subset : ∀ (seen xs : List String) (x : String),
    x ∈ dedupAux seen xs → x ∈ xs := by
  intro seen xs
  induction xs generalizing seen with
  | nil => intro x h; simp [dedupAux] at h
  | cons a t ih =>
    intro x h
    unfold dedupAux at h
    split at h
    · exact List.mem_cons_of_mem a (ih seen x h)
    · rcases List.mem_cons.mp h with h1 | h1
      · exact h1 ▸ List.mem_cons_self a t
      · exact List.mem_cons_of_mem a (ih (a :: seen) x h1)

/-- Every match the scanner emits is the maximal run at some suffix. -/
theorem findallAux_mem_run : ∀ (fuel : Nat) (l r : List Char),
    r ∈ findallAux fuel l → ∃ s, r = urlRun s := by
  intro fuel
  induction fuel with
  | zero => intro l r h; simp [findallAux] at h
  | succ f ih =>
    intro l r h
    cases l with
    | nil => simp [findallAux] at h
    | cons c cs =>
      rw [findallAux_cons] at h
      split at h
      · split at h
        · rcases List.mem_cons.mp h with h1 | h1
          · exact ⟨c :: cs, h1⟩
          · exact ih _ r h1
        · exact ih cs r h
      · exact ih cs r h

/-- A maximal run contains no excluded character. -/
theorem cleanRun_of_run (s : List Char) : cleanRun (urlRun s) = true := by
  unfold cleanRun urlRun
  rw [List.all_eq_true]
  intro c hc
  simpa using List.mem_takeWhile_imp hc

/-- `dropWhile` is idempotent. -/
theorem dropWhile_idem {α : Type} (p : α → Bool) :
    ∀ l : List α, (l.dropWhile p).dropWhile p = l.dropWhile p := by
  intro l
  induction l with
  | nil => rfl
  | cons a t ih =>
    rw [List.dropWhile_cons]
    by_cases h : p a = true
    · rw [if_pos h]; exact ih
    · rw [if_neg h, List.dropWhile_cons, if_neg h]

/-- Stripping trailing punctuation is idempotent. -/
theorem rstripPunct_idem (l : List Char) :
    rstripPunct (rstripPunct l) = rstripPunct l := by
  unfold rstripPunct
  rw [List.reverse_reverse, dropWhile_idem]

/-- Stripping trailing punctuation keeps a subset of the characters. -/
theorem rstripPunct_subset (l : List Char) (c : Char)
    (h : c ∈ rstripPunct l) : c ∈ l := by
  unfold rstripPunct at h
  rw [List.mem_reverse] at h
  exact List.mem_reverse.mp (List.Sublist.mem h (List.dropWhile_sublist _))

/-- Excluded characters stay absent after punctuation stripping. -/
theorem cleanRun_rstrip (r : List Char) (h : cleanRun r = true) :
    cleanRun (rstripPunct r) = true := by
  unfold cleanRun at h ⊢
  rw [List.all_eq_true] at h ⊢
  intro c hc
  exact h c (rstripPunct_subset r c hc)

/-- Every extracted URL is free of excluded characters and of trailing
punctuation. -/
theorem extract_urls_mem (text u : String) (h : u ∈ extract_urls text) :
    cleanRun u.data = true ∧ rstripPunct u.data = u.data := by
  unfold extract_urls at h
  split at h
  · simp at h
  · have h2 := dedupAux_subset _ _ _ h
    rw [List.mem_map] at h2
    obtain ⟨r, hr, hu⟩ := h2
    obtain ⟨s, hs⟩ := findallAux_mem_run _ _ r hr
    have hclean : cleanRun r = true := hs ▸ cleanRun_of_run s
    have hdata : u.data = rstripPunct r := by rw [← hu, string_mk_data]
    constructor
    · rw [hdata]; exact cleanRun_rstrip r hclean
    · rw [hdata, rstripPunct_idem]

/-- The scanner finds nothing when no suffix is scheme-headed. -/
theorem findallAux_none : ∀ (fuel : Nat) (l : List Char),
    (∀ i < l.length, schemeHeaded (l.drop i) = false) →
    findallAux fuel l = [] := by
  intro fuel
  induction fuel with
  | zero => intro l _; rfl
  | succ f ih =>
    intro l h
    cases l with
    | nil => rfl
    | cons c cs =>
      rw [findallAux_cons]
      have h0 : schemeHeaded (c :: cs) = false := by
        have := h 0 (by simp)
        simpa using this
      have hnone : schemeLenAt (c :: cs) = none := by
        rcases hx : schemeLenAt (c :: cs) with _ | k
        · rfl
        · unfold schemeHeaded at h0
          rw [hx] at h0
          simp at h0
      rw [hnone]
      show findallAux f cs = []
      exact ih cs (fun i hi => by
        have := h (i + 1) (by simp only [List.length_cons]; omega)
        simpa using this)
